import Mathlib

/-!
Formal model of the n-bits-go numeric analysis engine.

The Go source is shallowly embedded: machine integers are modelled as `Nat`
with explicit wrap (`% 2^32`) where Go overflow semantics matter, byte
buffers as `List Nat` of values `< 256`, and fallible functions return
`Except`.  Decoded `float32`/`float64` values are interpreted as exact
rationals (`ℚ`): every decoded scalar is exactly representable, comparisons
against the code's constants coincide with the rational ones on all decodable
values, and the running sum is modelled exactly (the spec directs tests to
compare with tolerance).  A Go expression `x & (2^k - 1)` is written
`x % 2^k`, which is the same number.
-/

namespace NBits

/-- Wrap a natural number to Go `uint32` range. -/
def u32 (n : ℕ) : ℕ := n % 2 ^ 32

/-- Go `uint32` decrement (`x--`), wrapping at zero. -/
def decU32 (n : ℕ) : ℕ := (n + (2 ^ 32 - 1)) % 2 ^ 32

/-! ## Float codec (package `floatx`, src/unnamed/part_001) -/

def bf16SignOffset : ℕ := 15
def bf16ExponentOffset : ℕ := 7
def f16SignOffset : ℕ := 15
def f16ExponentOffset : ℕ := 10
def f32SignOffset : ℕ := 31
def f32ExponentOffset : ℕ := 23
def f32ExponentBias : ℕ := 127

/-- `BF16.Components` (src/unnamed/part_001:250): sign, exponent, mantissa
fields of a 16-bit bfloat16 pattern. -/
def bf16Components (b : ℕ) : ℕ × ℕ × ℕ :=
  (b >>> bf16SignOffset, (b >>> bf16ExponentOffset) % 2 ^ 8, b % 2 ^ 7)

/-- `F16.Components` (src/unnamed/part_001:312). -/
def f16Components (b : ℕ) : ℕ × ℕ × ℕ :=
  (b >>> f16SignOffset, (b >>> f16ExponentOffset) % 2 ^ 5, b % 2 ^ 10)

/-- The subnormal-normalisation loop shared by the `Float32` decoders
(src/unnamed/part_001:283-287 and :343-347): while
`mantissa & (exponentMask << 23) == 0`, shift the mantissa left and decrement
the `uint32` exponent (wrapping).  Go's loop is unbounded; the embedding is
fuel-bounded, and every call site passes `0 < mantissa < 2^23`, for which at
most 23 iterations occur, so fuel 32 is never exhausted. -/
def normLoop (mask : ℕ) : ℕ → ℕ × ℕ → ℕ × ℕ
  | 0, me => me
  | fuel + 1, me =>
    if me.1 &&& mask = 0 then normLoop mask fuel (u32 (me.1 <<< 1), decU32 me.2)
    else me

/-- `BF16.Float32` (src/unnamed/part_001:260-292), returning the bit pattern
of the resulting `float32` (the Go code ends with `math.Float32frombits`). -/
def bf16Float32bits (b : ℕ) : ℕ :=
  let exponentMask : ℕ := 2 ^ (bf16SignOffset - bf16ExponentOffset) - 1
  let exponentBias : ℕ := 2 ^ (bf16SignOffset - bf16ExponentOffset) / 2 - 1
  let f32exponentMask : ℕ := 2 ^ (f32SignOffset - f32ExponentOffset) - 1
  let c := bf16Components b
  let sign := c.1 <<< f32SignOffset
  let mantissa := c.2.2 <<< (f32ExponentOffset - bf16ExponentOffset)
  if c.2.1 = exponentMask then
    sign ||| (f32exponentMask <<< f32ExponentOffset) ||| mantissa
  else if c.2.1 = 0 ∧ mantissa = 0 then
    sign
  else
    let me :=
      if c.2.1 = 0 then
        let p := normLoop (f32exponentMask <<< f32ExponentOffset) 32 (mantissa, c.2.1 + 1)
        (p.1 % 2 ^ f32ExponentOffset, p.2)
      else (mantissa, c.2.1)
    sign ||| u32 (u32 (me.2 + (f32ExponentBias - exponentBias)) <<< f32ExponentOffset) ||| me.1

/-- `F16.Float32` (src/unnamed/part_001:322-352), returning the bit pattern
of the resulting `float32`. -/
def f16Float32bits (b : ℕ) : ℕ :=
  let exponentMask : ℕ := 2 ^ (f16SignOffset - f16ExponentOffset) - 1
  let exponentBias : ℕ := 2 ^ (f16SignOffset - f16ExponentOffset) / 2 - 1
  let f32exponentMask : ℕ := 2 ^ (f32SignOffset - f32ExponentOffset) - 1
  let c := f16Components b
  let sign := c.1 <<< f32SignOffset
  let mantissa := c.2.2 <<< (f32ExponentOffset - f16ExponentOffset)
  if c.2.1 = exponentMask then
    sign ||| (f32exponentMask <<< f32ExponentOffset) ||| mantissa
  else if c.2.1 = 0 ∧ mantissa = 0 then
    sign
  else
    let me :=
      if c.2.1 = 0 then
        let p := normLoop (f32exponentMask <<< f32ExponentOffset) 32 (mantissa, c.2.1 + 1)
        (p.1 % 2 ^ f32ExponentOffset, p.2)
      else (mantissa, c.2.1)
    sign ||| u32 (u32 (me.2 + (f32ExponentBias - exponentBias)) <<< f32ExponentOffset) ||| me.1

/-! ## Interpretation of float32 bit patterns

These definitions are the IEEE-754 single-precision reading of a 32-bit
pattern; they play the role of `math.Float32frombits` plus the classification
predicates `math.IsNaN` / `math.IsInf` on the Go side. -/

def f32SignField (bits : ℕ) : ℕ := bits >>> 31
def f32ExpField (bits : ℕ) : ℕ := (bits >>> 23) % 2 ^ 8
def f32ManField (bits : ℕ) : ℕ := bits % 2 ^ 23

def f32IsNaNb (bits : ℕ) : Bool := f32ExpField bits == 255 && f32ManField bits != 0

def f32IsInfb (bits : ℕ) : Bool := f32ExpField bits == 255 && f32ManField bits == 0

/-- The exact value of a finite IEEE-754 single-precision bit pattern.
(The value is meaningless when the exponent field is 255; all uses are
guarded by the NaN/Inf predicates.) -/
def f32Val (bits : ℕ) : ℚ :=
  let sgn : ℚ := if f32SignField bits = 0 then 1 else -1
  if f32ExpField bits = 0 then
    sgn * f32ManField bits * (2 : ℚ) ^ (-149 : ℤ)
  else
    sgn * (2 ^ 23 + (f32ManField bits : ℚ)) * (2 : ℚ) ^ ((f32ExpField bits : ℤ) - 150)

/-- Claim C2 (code bug): the codec does not decode the smallest BF16
subnormal `0x0001` to its exact value `2^(-133)`.  The normalisation loop of
`BF16.Float32` wraps the `uint32` exponent below zero (1 − 7 shifts), and the
reassembled pattern is `0xFD000000`, the float32 value `-(2^123)`. -/
theorem c2_bf16_smallest_subnormal_misdecoded :
    bf16Float32bits 1 = 0xFD000000 ∧
    f32Val (bf16Float32bits 1) = -(2 ^ 123) ∧
    f32Val (bf16Float32bits 1) ≠ (2 : ℚ) ^ (-133 : ℤ) := by
  refine ⟨by decide, ?_, ?_⟩
  · rw [show bf16Float32bits 1 = 0xFD000000 from by decide]
    norm_num [f32Val, f32SignField, f32ExpField, f32ManField, Nat.shiftRight_eq_div_pow]
  · rw [show bf16Float32bits 1 = 0xFD000000 from by decide]
    norm_num [f32Val, f32SignField, f32ExpField, f32ManField, Nat.shiftRight_eq_div_pow]

/-! ## Population sets (package `n_bits`, src/unnamed/part_010) -/

/-- `CountSet` (src/unnamed/part_010:126): a dense vector of 8-bit saturating
counters; `Counts []uint8` is a list of naturals `< 256`. -/
abbrev CountSet := List ℕ

/-- `CountSet.Resize` (part_010:130): zero-fill to size `l`. -/
def csResize (l : ℕ) : CountSet := List.replicate l 0

/-- `CountSet.Add` (part_010:137): saturating increment at index `i`.
(Go aborts on an out-of-range index; every call site stays in range.) -/
def csAdd (c : CountSet) (i : ℕ) : CountSet :=
  if c.getD i 0 = 255 then c else c.set i (c.getD i 0 + 1)

/-- `CountSet.Get` (part_010:144). -/
def csGet (c : CountSet) (i : ℕ) : ℕ := c.getD i 0

/-- `CountSet.Effective` (part_010:149): the number of non-zero counters. -/
def csEffective (c : CountSet) : ℕ := c.countP (· != 0)

/-- `CountSet.MarshalJSON` (part_010:160), modelled at the byte level: the
JSON value is the base64 of the `Counts` buffer (empty buffer → empty
string).  Base64 plus JSON string quoting is an injective transport supplied
by the Go standard library, so the model keeps the byte payload itself. -/
def csMarshal (c : CountSet) : List ℕ := c

/-- `CountSet.UnmarshalJSON` (part_010:170): an empty string restores the
empty set, otherwise the decoded bytes become `Counts`.  (Go's
`len(d) == 0` error branch is unreachable: base64-decoding a non-empty
string never yields zero bytes.) -/
def csUnmarshal (d : List ℕ) : Except String CountSet :=
  if d.length = 0 then .ok [] else .ok d

/-- `BitSet` (part_010:27): a length plus 64-bit words. -/
structure BitSet where
  len : ℕ
  bits : List ℕ
  deriving DecidableEq

/-- `BitSet.Resize` (part_010:32): `⌈l/64⌉` zeroed words. -/
def bsResize (l : ℕ) : BitSet := ⟨l, List.replicate ((l + 63) / 64) 0⟩

/-- `BitSet.Set` (part_010:40): `Bits[i/64] |= 1 << (i%64)`. -/
def bsSet (b : BitSet) (i : ℕ) : BitSet :=
  ⟨b.len, b.bits.set (i / 64) (b.bits.getD (i / 64) 0 ||| 1 <<< (i % 64))⟩

/-- `BitSet.Get` (part_010:44). -/
def bsGet (b : BitSet) (i : ℕ) : Bool :=
  b.bits.getD (i / 64) 0 &&& 1 <<< (i % 64) != 0

/-- `bits.OnesCount64`: population count of the low 64 bits (used with fuel
64; every stored word is `< 2^64`). -/
def popCount : ℕ → ℕ → ℕ
  | 0, _ => 0
  | fuel + 1, n => n % 2 + popCount fuel (n / 2)

/-- `BitSet.Effective` (part_010:58): total population count. -/
def bsEffective (b : BitSet) : ℕ := (b.bits.map (popCount 64)).sum

/-- `binary.LittleEndian.PutUint64`: the eight little-endian bytes of a
64-bit word. -/
def leBytes64 (v : ℕ) : List ℕ :=
  [v % 256, v / 2 ^ 8 % 256, v / 2 ^ 16 % 256, v / 2 ^ 24 % 256,
   v / 2 ^ 32 % 256, v / 2 ^ 40 % 256, v / 2 ^ 48 % 256, v / 2 ^ 56 % 256]

/-- `binary.LittleEndian.Uint64` of the first eight bytes. -/
def leUint64 (l : List ℕ) : ℕ :=
  l.getD 0 0 + 2 ^ 8 * l.getD 1 0 + 2 ^ 16 * l.getD 2 0 + 2 ^ 24 * l.getD 3 0 +
    2 ^ 32 * l.getD 4 0 + 2 ^ 40 * l.getD 5 0 + 2 ^ 48 * l.getD 6 0 +
    2 ^ 56 * l.getD 7 0

/-- `BitSet.MarshalJSON` (part_010:70): one byte holding `Len % 64` (0
encodes 64) followed by the words little-endian; an empty bitset produces the
empty string.  Modelled at the byte level, as for `csMarshal`. -/
def bsMarshal (b : BitSet) : List ℕ :=
  if b.len ≠ 0 then b.len % 64 :: (b.bits.map leBytes64).flatten else []

/-- `BitSet.UnmarshalJSON` (part_010:87). -/
def bsUnmarshal (d : List ℕ) : Except String BitSet :=
  if d.length = 0 then .ok ⟨0, []⟩
  else if 63 < d.getD 0 0 then .error "invalid BitSet encoding"
  else
    let last := if d.getD 0 0 = 0 then 64 else d.getD 0 0
    let l := (d.length + 6) / 8
    .ok ⟨(l - 1) * 64 + last,
      (List.range l).map fun i => leUint64 ((d.drop (1 + 8 * i)).take 8)⟩

/-! ### List helper lemmas for the set proofs -/

theorem getD_set_self : ∀ (c : List ℕ) (k x : ℕ), k < c.length →
    (c.set k x).getD k 0 = x
  | _ :: _, 0, _, _ => rfl
  | _ :: c, k + 1, x, h => getD_set_self c k x (Nat.lt_of_succ_lt_succ h)

theorem getD_set_ne : ∀ (c : List ℕ) (k j x : ℕ), k ≠ j →
    (c.set k x).getD j 0 = c.getD j 0
  | [], _, _, _, _ => rfl
  | _ :: _, 0, 0, _, h => absurd rfl h
  | _ :: _, 0, _ + 1, _, _ => rfl
  | _ :: _, _ + 1, 0, _, _ => rfl
  | _ :: c, k + 1, j + 1, x, h =>
    getD_set_ne c k j x fun e => h (congrArg Nat.succ e)

theorem set_getD_self : ∀ (c : List ℕ) (k : ℕ), k < c.length →
    c.set k (c.getD k 0) = c
  | _ :: _, 0, _ => rfl
  | a :: c, k + 1, h =>
    congrArg (a :: ·) (set_getD_self c k (Nat.lt_of_succ_lt_succ h))

theorem countP_set_exchange (p : ℕ → Bool) : ∀ (c : List ℕ) (k a : ℕ),
    k < c.length →
    (c.set k a).countP p + (if p (c.getD k 0) then 1 else 0) =
      c.countP p + (if p a then 1 else 0)
  | x :: c, 0, a, _ => by simp [List.countP_cons]; omega
  | x :: c, k + 1, a, h => by
    have ih := countP_set_exchange p c k a (Nat.lt_of_succ_lt_succ h)
    show (x :: c.set k a).countP p + (if p (c.getD k 0) then 1 else 0) =
      (x :: c).countP p + (if p a then 1 else 0)
    simp only [List.countP_cons]
    omega

/-- Closed form of `N` saturating `Add` calls at a fixed index. -/
theorem csAdd_iterate (c : CountSet) (k : ℕ) :
    ∀ N : ℕ, k < c.length → csGet c k ≤ 255 →
    (fun s => csAdd s k)^[N] c = c.set k (min (csGet c k + N) 255) := by
  intro N
  induction N generalizing c with
  | zero =>
    intro hk hv
    simp only [Function.iterate_zero, id]
    rw [Nat.add_zero, Nat.min_eq_left hv]
    exact (set_getD_self c k hk).symm
  | succ n ih =>
    intro hk hv
    rw [Function.iterate_succ_apply]
    by_cases h255 : csGet c k = 255
    · have hfix : csAdd c k = c := by
        unfold csAdd
        rw [if_pos (by rw [← csGet]; exact h255)]
      rw [hfix, ih c hk hv, h255]
      congr 1
      omega
    · have hstep : csAdd c k = c.set k (csGet c k + 1) := by
        unfold csAdd
        rw [if_neg (by rw [← csGet]; exact h255)]
        rfl
      rw [hstep]
      have hk2 : k < (c.set k (csGet c k + 1)).length := by
        simpa using hk
      have hv2 : csGet (c.set k (csGet c k + 1)) k ≤ 255 := by
        rw [csGet, getD_set_self c k _ hk]
        omega
      rw [ih _ hk2 hv2, List.set_set, csGet, getD_set_self c k _ hk]
      congr 1
      omega

/-- Claim C9: `CountSet.Add` saturates at 255 (no error is possible: the
model is a total function), and `Effective` — the number of non-zero
counters — is unchanged by the saturating calls: after `N > 255` adds at
`k` it equals its value after a single add. -/
theorem c9_countset_saturating_add (c : CountSet) (k N : ℕ)
    (hk : k < c.length) (hc : ∀ x ∈ c, x ≤ 255) (hN : 255 < N) :
    csGet ((fun s => csAdd s k)^[N] c) k = 255 ∧
    csEffective ((fun s => csAdd s k)^[N] c) = csEffective (csAdd c k) := by
  have hv : csGet c k ≤ 255 := by
    unfold csGet
    rw [List.getD_eq_getElem c 0 hk]
    exact hc _ (List.getElem_mem hk)
  have h1 := csAdd_iterate c k N hk hv
  have h2 : csAdd c k = c.set k (min (csGet c k + 1) 255) := by
    have := csAdd_iterate c k 1 hk hv
    simpa using this
  constructor
  · rw [h1, csGet, getD_set_self c k _ hk]
    omega
  · rw [h1, h2]
    have e1 := countP_set_exchange (· != 0) c k (min (csGet c k + N) 255) hk
    have e2 := countP_set_exchange (· != 0) c k (min (csGet c k + 1) 255) hk
    have hA : ((min (csGet c k + N) 255 : ℕ) != 0) = true := by
      simp only [bne_iff_ne, ne_eq]
      omega
    have hB : ((min (csGet c k + 1) 255 : ℕ) != 0) = true := by
      simp only [bne_iff_ne, ne_eq]
      omega
    simp only [hA, hB, if_true] at e1 e2
    unfold csEffective
    omega

/-- Witness for C9 at a concrete input. -/
theorem c9_countset_saturating_add_witness :
    csGet ((fun s => csAdd s 0)^[300] [0, 3]) 0 = 255 ∧
    csEffective ((fun s => csAdd s 0)^[300] [0, 3]) =
      csEffective (csAdd [0, 3] 0) :=
  c9_countset_saturating_add [0, 3] 0 300 (by decide) (by decide) (by decide)

/-- Claim C10: a CountSet round-trips through its serialized form, so every
counter value — and hence `Effective` — is preserved.  The hypothesis records
that every counter is a byte, which is what makes the byte-level transport
model faithful (`Counts` has type `[]uint8` in Go). -/
theorem c10_countset_roundtrip (c : CountSet) (hc : ∀ x ∈ c, x < 256) :
    csUnmarshal (csMarshal c) = .ok c ∧
    (csUnmarshal (csMarshal c)).map csEffective = .ok (csEffective c) := by
  have : csUnmarshal (csMarshal c) = .ok c := by
    unfold csUnmarshal csMarshal
    by_cases h : c.length = 0
    · rw [if_pos h, List.length_eq_zero.mp h]
    · rw [if_neg h]
  exact ⟨this, by rw [this]; rfl⟩

/-- Witness for C10 at a concrete input. -/
theorem c10_countset_roundtrip_witness :
    csUnmarshal (csMarshal [7, 0, 255]) = .ok [7, 0, 255] ∧
    (csUnmarshal (csMarshal [7, 0, 255])).map csEffective =
      .ok (csEffective [7, 0, 255]) :=
  c10_countset_roundtrip [7, 0, 255] (by decide)

theorem flatten_leBytes64_length (l : List ℕ) :
    ((l.map leBytes64).flatten).length = 8 * l.length := by
  induction l with
  | nil => rfl
  | cons w l ih =>
    simp only [List.map_cons, List.flatten_cons, List.length_append, ih,
      List.length_cons, leBytes64]
    simp
    omega

theorem leUint64_leBytes64 (w : ℕ) (hw : w < 2 ^ 64) :
    leUint64 (leBytes64 w) = w := by
  unfold leUint64 leBytes64
  simp only [List.getD_cons_zero, List.getD_cons_succ]
  omega

theorem flatten_chunks (ws : List ℕ) (hw : ∀ w ∈ ws, w < 2 ^ 64) :
    (List.range ws.length).map
      (fun i => leUint64 (((ws.map leBytes64).flatten.drop (8 * i)).take 8)) =
      ws := by
  induction ws with
  | nil => rfl
  | cons w ws ih =>
    have h8 : (leBytes64 w).length = 8 := rfl
    simp only [List.map_cons, List.flatten_cons, List.length_cons,
      List.range_succ_eq_map, List.map_map]
    congr 1
    · rw [Nat.mul_zero, List.drop_zero, List.take_left' h8]
      exact leUint64_leBytes64 w (hw w (List.mem_cons_self w ws))
    · have hcong : ∀ i ∈ List.range ws.length,
          ((fun i => leUint64 ((((leBytes64 w ++
            (ws.map leBytes64).flatten)).drop (8 * i)).take 8)) ∘ Nat.succ) i =
          (fun i =>
            leUint64 ((((ws.map leBytes64).flatten).drop (8 * i)).take 8)) i := by
        intro i _
        simp only [Function.comp_apply]
        rw [show 8 * (i + 1) = 8 + 8 * i by ring, ← List.drop_drop,
          List.drop_left' h8]
      rw [List.map_congr_left hcong]
      exact ih fun x hx => hw x (List.mem_cons_of_mem _ hx)

/-- Unfolding of `bsUnmarshal` on a non-empty payload with a valid first
byte. -/
theorem bsUnmarshal_spec (d : List ℕ) (h1 : ¬d.length = 0)
    (h2 : ¬63 < d.getD 0 0) :
    bsUnmarshal d = .ok ⟨((d.length + 6) / 8 - 1) * 64 +
      (if d.getD 0 0 = 0 then 64 else d.getD 0 0),
      (List.range ((d.length + 6) / 8)).map
        fun i => leUint64 ((d.drop (1 + 8 * i)).take 8)⟩ := by
  unfold bsUnmarshal
  rw [if_neg h1, if_neg h2]

/-- Claim C6: serialize/deserialize round-trip of `BitSet`.  The hypotheses
are the representation invariants every reachable `BitSet` satisfies:
`Resize` allocates `⌈len/64⌉` words and `Set` keeps each word below `2^64`
(Go words have type `uint64`).  Preserving the whole structure in particular
preserves `Len` and `Get i` for every `i < Len`. -/
theorem c6_bitset_roundtrip (b : BitSet)
    (hlen : b.bits.length = (b.len + 63) / 64)
    (hw : ∀ w ∈ b.bits, w < 2 ^ 64) :
    bsUnmarshal (bsMarshal b) = .ok b := by
  by_cases h0 : b.len = 0
  · have hbits : b.bits = [] := List.length_eq_zero.mp (by rw [hlen, h0])
    have hm : bsMarshal b = [] := by unfold bsMarshal; simp [h0]
    have hb : b = ⟨0, []⟩ := by cases b; simp_all
    rw [hm, hb]
    rfl
  · have hm : bsMarshal b = b.len % 64 :: (b.bits.map leBytes64).flatten := by
      unfold bsMarshal
      rw [if_pos h0]
    have hflat : ((b.bits.map leBytes64).flatten).length = 8 * b.bits.length :=
      flatten_leBytes64_length b.bits
    have hdlen : (b.len % 64 :: (b.bits.map leBytes64).flatten).length =
        1 + 8 * b.bits.length := by
      simp [hflat]
      omega
    have hW : (1 + 8 * b.bits.length + 6) / 8 = b.bits.length := by omega
    rw [hm, bsUnmarshal_spec _ (by rw [hdlen]; omega)
      (by simp only [List.getD_cons_zero]; omega)]
    simp only [List.getD_cons_zero, hdlen, hW]
    have hmap : (List.range b.bits.length).map
        (fun i => leUint64 (((b.len % 64 :: (b.bits.map leBytes64).flatten).drop
          (1 + 8 * i)).take 8)) = b.bits := by
      have hcong : ∀ i ∈ List.range b.bits.length,
          (fun i => leUint64 (((b.len % 64 :: (b.bits.map leBytes64).flatten).drop
            (1 + 8 * i)).take 8)) i =
          (fun i =>
            leUint64 ((((b.bits.map leBytes64).flatten).drop (8 * i)).take 8)) i := by
        intro i _
        simp only []
        rw [show 1 + 8 * i = 8 * i + 1 by ring, List.drop_succ_cons]
      rw [List.map_congr_left hcong]
      exact flatten_chunks b.bits hw
    rw [hmap]
    have hl : (b.bits.length - 1) * 64 + (if b.len % 64 = 0 then 64 else b.len % 64) =
        b.len := by
      by_cases hr : b.len % 64 = 0 <;> simp only [hr, if_true, if_false] <;> omega
    rw [hl]

/-- Witness for C6 at a concrete input (`N = 65`, both words non-trivial). -/
theorem c6_bitset_roundtrip_witness :
    bsUnmarshal (bsMarshal ⟨65, [2 ^ 64 - 1, 1]⟩) =
      .ok (⟨65, [2 ^ 64 - 1, 1]⟩ : BitSet) :=
  c6_bitset_roundtrip ⟨65, [2 ^ 64 - 1, 1]⟩ (by decide) (by decide)

/-! ## Tensor analysis (package `n_bits`, src/unnamed/part_012) -/

/-- Modelled from the spec: `safetensors.DType`, the closed enumeration of
element encodings named in §3 (`F16`, `BF16`, `F32`, `F8E4M3`, `F8E5M2`,
`I32`, `U32`).  The type itself lives in the external
`github.com/maruel/safetensors` collaborator package. -/
inductive DType where
  | F16
  | BF16
  | F32
  | F8E4M3
  | F8E5M2
  | I32
  | U32
  deriving DecidableEq

/-- Modelled from the spec: `DType.WordSize`, the word size in bytes of each
encoding (spec §3; the method lives in the safetensors package). -/
def DType.wordSize : DType → ℕ
  | .F16 => 2
  | .BF16 => 2
  | .F32 => 4
  | .F8E4M3 => 1
  | .F8E5M2 => 1
  | .I32 => 4
  | .U32 => 4

/-- The `unsafe.Slice` remap of the byte buffer as `len/2` little-endian
16-bit words (part_012:227, :269): a trailing odd byte is dropped. -/
def words16 : List ℕ → List ℕ
  | b0 :: b1 :: rest => (b0 + 2 ^ 8 * b1) :: words16 rest
  | _ => []

/-- The `unsafe.Slice` remap as `len/4` little-endian 32-bit words
(part_012:311, :351, :383). -/
def words32 : List ℕ → List ℕ
  | b0 :: b1 :: b2 :: b3 :: rest =>
    (b0 + 2 ^ 8 * b1 + 2 ^ 16 * b2 + 2 ^ 24 * b3) :: words32 rest
  | _ => []

/-- `math.MaxFloat32` as an exact rational: `(2 - 2^(-23)) * 2^127`. -/
def maxFloat32 : ℚ := (2 ^ 24 - 1) * 2 ^ 104

/-- The `1e37` threshold of the sweep loops (part_012:238, :280, :324).
The Go literal denotes the nearest `float64` to `10^37`; no decodable scalar
lies strictly between the two, so the exact rational comparison agrees with
the float comparison on every value that reaches it. -/
def infThreshold : ℚ := 10 ^ 37

/-- The running state of a float sweep loop: three histogram sets plus
min/max/total and the NaN/Inf tallies. -/
structure FloatSweep where
  signs : CountSet
  exponents : CountSet
  mantissas : BitSet
  minV : ℚ
  maxV : ℚ
  total : ℚ
  inf : ℕ
  nan : ℕ

/-- The initial sweep state (part_012:214-223 etc.): `signs.Resize(1<<1)`,
`exponents.Resize(1<<expBits)`, `mantissas.Resize(1<<manBits)`,
`min = math.MaxFloat32`, `max = -math.MaxFloat32`, zero total/inf/nan. -/
def floatSweepInit (expBits manBits : ℕ) : FloatSweep :=
  ⟨csResize (2 ^ 1), csResize (2 ^ expBits), bsResize (2 ^ manBits),
    maxFloat32, -maxFloat32, 0, 0, 0⟩

/-- One iteration of the `calcF16HistogramAndStats` loop (part_012:229-249).
The classification keeps Go's operator precedence: `math.IsInf(v, 0) ||
v < -1e37 && v > 1e37` is `IsInf ∨ (v < -1e37 ∧ v > 1e37)`. -/
def f16Step (st : FloatSweep) (p : ℕ) : FloatSweep :=
  let c := f16Components p
  let st1 := { st with signs := csAdd st.signs c.1,
                       exponents := csAdd st.exponents c.2.1,
                       mantissas := bsSet st.mantissas c.2.2 }
  let v := f16Float32bits p
  if f32IsNaNb v then { st1 with nan := st1.nan + 1 }
  else if f32IsInfb v ∨ (f32Val v < -infThreshold ∧ infThreshold < f32Val v) then
    { st1 with inf := st1.inf + 1 }
  else
    { st1 with total := st1.total + f32Val v,
               minV := if f32Val v < st1.minV then f32Val v else st1.minV,
               maxV := if st1.maxV < f32Val v then f32Val v else st1.maxV }

/-- One iteration of the `calcBF16HistogramAndStats` loop (part_012:271-291);
here the classification is `IsInf ∨ v < -1e37 ∨ v > 1e37`. -/
def bf16Step (st : FloatSweep) (p : ℕ) : FloatSweep :=
  let c := bf16Components p
  let st1 := { st with signs := csAdd st.signs c.1,
                       exponents := csAdd st.exponents c.2.1,
                       mantissas := bsSet st.mantissas c.2.2 }
  let v := bf16Float32bits p
  if f32IsNaNb v then { st1 with nan := st1.nan + 1 }
  else if f32IsInfb v ∨ f32Val v < -infThreshold ∨ infThreshold < f32Val v then
    { st1 with inf := st1.inf + 1 }
  else
    { st1 with total := st1.total + f32Val v,
               minV := if f32Val v < st1.minV then f32Val v else st1.minV,
               maxV := if st1.maxV < f32Val v then f32Val v else st1.maxV }

/-- One iteration of the `calcF32HistogramAndStats` loop (part_012:313-334).
The element is already a float32 pattern; the field extraction uses the
`floatx.F32ExponentMask`/`F32MantissaMask` constants.  Faithful to the
source, `total` is never accumulated in this loop. -/
def f32Step (st : FloatSweep) (p : ℕ) : FloatSweep :=
  let sign := p >>> f32SignOffset
  let exponent := (p >>> f32ExponentOffset) % 2 ^ 8
  let mantissa := p % 2 ^ 23
  let st1 := { st with signs := csAdd st.signs sign,
                       exponents := csAdd st.exponents exponent,
                       mantissas := bsSet st.mantissas mantissa }
  if f32IsNaNb p then { st1 with nan := st1.nan + 1 }
  else if f32IsInfb p ∨ f32Val p < -infThreshold ∨ infThreshold < f32Val p then
    { st1 with inf := st1.inf + 1 }
  else
    { st1 with minV := if f32Val p < st1.minV then f32Val p else st1.minV,
               maxV := if st1.maxV < f32Val p then f32Val p else st1.maxV }

/-- The running state of `calcI32HistogramAndStats` (part_012:342-370). -/
structure IntSweep where
  signs : CountSet
  mantissas : CountSet
  minV : ℤ
  maxV : ℤ
  total : ℤ

/-- Two's-complement reading of a 32-bit pattern (Go `int32`). -/
def toInt32 (bits : ℕ) : ℤ :=
  if bits < 2 ^ 31 then (bits : ℤ) else (bits : ℤ) - 2 ^ 32

/-- Go `int64` wraparound. -/
def wrapI64 (z : ℤ) : ℤ := (z + 2 ^ 63) % 2 ^ 64 - 2 ^ 63

/-- One iteration of the `calcI32HistogramAndStats` loop (part_012:353-367):
`signs.Add(uint32(i) >> 31)`, `mantissas.Add(j)` for every set value bit
`j < 31` (`i & (1<<j) != 0` is bit `j` of the pattern), and int32 min/max
with an int64 total. -/
def i32Step (st : IntSweep) (p : ℕ) : IntSweep :=
  let v := toInt32 p
  { signs := csAdd st.signs (p >>> 31)
    mantissas := (List.range 31).foldl
      (fun ms j => if p / 2 ^ j % 2 = 1 then csAdd ms j else ms) st.mantissas
    minV := if v < st.minV then v else st.minV
    maxV := if st.maxV < v then v else st.maxV
    total := wrapI64 (st.total + v) }

/-- The running state of `calcU32HistogramAndStats` (part_012:376-401). -/
structure U32Sweep where
  mantissas : CountSet
  minV : ℕ
  maxV : ℕ
  total : ℕ

/-- One iteration of the `calcU32HistogramAndStats` loop (part_012:385-398):
all 32 value bits, uint32 min/max, uint64 total. -/
def u32Step (st : U32Sweep) (p : ℕ) : U32Sweep :=
  { mantissas := (List.range 32).foldl
      (fun ms j => if p / 2 ^ j % 2 = 1 then csAdd ms j else ms) st.mantissas
    minV := if p < st.minV then p else st.minV
    maxV := if st.maxV < p then p else st.maxV
    total := (st.total + p) % 2 ^ 64 }

/-- The three `BitAllocation` implementations (part_012:58-197):
`BitKindCount` (CountSet histogram), `BitKindBool` (BitSet presence) and
`BitMaskCount` (per-bit counters for the integer paths). -/
inductive BitAlloc where
  | kindCount (allocation : ℤ) (valuesSeen : CountSet)
  | kindBool (allocation : ℤ) (valuesSeen : BitSet)
  | kindMask (allocation : ℤ) (valuesSeen : CountSet)

def BitAlloc.getAllocation : BitAlloc → ℤ
  | .kindCount a _ => a
  | .kindBool a _ => a
  | .kindMask a _ => a

/-- Go `int32` reading of the low 32 bits of a natural number. -/
def int32OfBits (n : ℕ) : ℤ :=
  if n % 2 ^ 32 < 2 ^ 31 then (n % 2 ^ 32 : ℤ) else (n % 2 ^ 32 : ℤ) - 2 ^ 32

/-- `int32(math.Ceil(math.Log2(float64 e)))` from the `cache` methods, for
`e ≥ 1`: this is `Nat.clog 2 e`.  `math.Log2` is exact on powers of two (Go
special-cases `frac == 0.5` in its implementation) and its rounding error
elsewhere is many orders of magnitude below the distance from `log2 e` to the
nearest integer for `e ≤ 2^23`, so the ceiling is exact on every reachable
population.  (For `e = 0` Go converts `Ceil(-Inf)` — an
implementation-specific value; the model returns `Nat.clog 2 0 = 0`, and no
theorem relies on that case.) -/
def ceilLog2 (e : ℕ) : ℤ := Nat.clog 2 e

/-- `NumberDifferentValuesSeen` after `cache` (part_012:77-88, 121-132,
167-178).  In `BitMaskCount.cache` the code sets
`effective = 1 << actuallyUsed` in `int32` arithmetic, which wraps for 31 or
32 used bit positions. -/
def BitAlloc.numberDifferentValuesSeen : BitAlloc → ℤ
  | .kindCount _ s => (csEffective s : ℤ)
  | .kindBool _ s => (bsEffective s : ℤ)
  | .kindMask _ s => int32OfBits (2 ^ csEffective s)

/-- `BitsWasted` after `cache`: `allocation - ceil(log2 effective)` for the
count/bool kinds, `allocation - effective` for the mask kind, and `0`
whenever `allocation = 0`. -/
def BitAlloc.bitsWasted : BitAlloc → ℤ
  | .kindCount a s => if a = 0 then 0 else a - ceilLog2 (csEffective s)
  | .kindBool a s => if a = 0 then 0 else a - ceilLog2 (bsEffective s)
  | .kindMask a s => if a = 0 then 0 else a - (csEffective s : ℤ)

/-- `AnalyzedTensor` (part_012:22-34); `avg`, `min`, `max` carry the exact
values of the Go `float64` fields. -/
structure AnalyzedTensor where
  name : String
  dtype : DType
  numEl : ℤ
  avg : ℚ
  min : ℚ
  max : ℚ
  inf : ℕ
  nan : ℕ
  sign : BitAlloc
  exponent : BitAlloc
  mantissa : BitAlloc

/-- `AnalyzeTensor` (part_012:404-491).  Each float case runs the
corresponding sweep and packages the result; `avg` is
`total / float64(numEl)` (rational division here — for `numEl = 0` Go
produces `0.0/0.0 = NaN`, so properties about `avg` are stated for non-empty
tensors only).  There is no validation of the buffer length: the word count
is `len(t.Data) / wordSize`, rounded down.  `F8E4M3` and `F8E5M2` fall into
the `default` branch and return an error. -/
def analyzeTensor (name : String) (dtype : DType) (data : List ℕ) :
    Except String AnalyzedTensor :=
  match dtype with
  | .F16 =>
    let st := (words16 data).foldl f16Step (floatSweepInit 5 10)
    let numEl : ℤ := (data.length / DType.wordSize .F16 : ℕ)
    .ok ⟨name, .F16, numEl, st.total / (data.length / DType.wordSize .F16 : ℕ),
      st.minV, st.maxV, st.inf, st.nan,
      .kindCount 1 st.signs, .kindCount 5 st.exponents, .kindBool 10 st.mantissas⟩
  | .BF16 =>
    let st := (words16 data).foldl bf16Step (floatSweepInit 8 7)
    let numEl : ℤ := (data.length / DType.wordSize .BF16 : ℕ)
    .ok ⟨name, .BF16, numEl, st.total / (data.length / DType.wordSize .BF16 : ℕ),
      st.minV, st.maxV, st.inf, st.nan,
      .kindCount 1 st.signs, .kindCount 8 st.exponents, .kindBool 7 st.mantissas⟩
  | .F32 =>
    let st := (words32 data).foldl f32Step (floatSweepInit 8 23)
    let numEl : ℤ := (data.length / DType.wordSize .F32 : ℕ)
    .ok ⟨name, .F32, numEl, st.total / (data.length / DType.wordSize .F32 : ℕ),
      st.minV, st.maxV, st.inf, st.nan,
      .kindCount 1 st.signs, .kindCount 8 st.exponents, .kindBool 23 st.mantissas⟩
  | .I32 =>
    let st := (words32 data).foldl i32Step
      ⟨csResize (2 ^ 1), csResize 31, 2 ^ 31 - 1, -(2 ^ 31), 0⟩
    let numEl : ℤ := (data.length / DType.wordSize .I32 : ℕ)
    .ok ⟨name, .I32, numEl, (st.total : ℚ) / (data.length / DType.wordSize .I32 : ℕ),
      (st.minV : ℚ), (st.maxV : ℚ), 0, 0,
      .kindCount 1 st.signs, .kindCount 0 [], .kindMask 31 st.mantissas⟩
  | .U32 =>
    let st := (words32 data).foldl u32Step ⟨csResize 32, 2 ^ 32 - 1, 0, 0⟩
    let numEl : ℤ := (data.length / DType.wordSize .U32 : ℕ)
    .ok ⟨name, .U32, numEl, (st.total : ℚ) / (data.length / DType.wordSize .U32 : ℕ),
      (st.minV : ℚ), (st.maxV : ℚ), 0, 0,
      .kindCount 0 [], .kindCount 0 [], .kindMask 32 st.mantissas⟩
  | _ => .error (name ++ ": TODO implement support for dtype")

/-- The per-tensor wasted-byte total of the reporting layer
(cmd/n-bits/analyze.go:
`a.NumEl * int64(a.Sign.BitsWasted()+a.Exponent.BitsWasted()+a.Mantissa.BitsWasted()) / 8`).
The operands are non-negative wherever this is used, so `Int` division
agrees with Go's truncating `int64` division. -/
def wastedBytes (a : AnalyzedTensor) : ℤ :=
  a.numEl * (a.sign.bitsWasted + a.exponent.bitsWasted + a.mantissa.bitsWasted) / 8

/-- Claim C4 (amended): `AnalyzeTensor` performs no length validation and has
no `MalformedTensor` error: for every supported DType it succeeds on a buffer
of any length and silently truncates, reporting `⌊len/wordSize⌋` elements. -/
theorem c4_no_length_validation (name : String) (dt : DType) (data : List ℕ)
    (h : dt ∈ [DType.F16, DType.BF16, DType.F32, DType.I32, DType.U32]) :
    ∃ a, analyzeTensor name dt data = .ok a ∧
      a.numEl = (data.length / dt.wordSize : ℕ) := by
  fin_cases h <;> exact ⟨_, rfl, rfl⟩

/-- Counterexample to claim C4 as stated: a 3-byte F16 buffer (not a multiple
of the word size 2) is not rejected; the analysis succeeds and the trailing
byte is silently dropped (`NumEl = 1`). -/
theorem c4_odd_f16_buffer_accepted :
    ∃ a, analyzeTensor "t" DType.F16 [0, 0, 0] = .ok a ∧ a.numEl = 1 :=
  ⟨_, rfl, rfl⟩

/-- Witness for C4 at a concrete input. -/
theorem c4_no_length_validation_witness :
    ∃ a, analyzeTensor "t" DType.BF16 [1, 2, 3] = .ok a ∧
      a.numEl = (([1, 2, 3] : List ℕ).length / DType.wordSize .BF16 : ℕ) :=
  c4_no_length_validation "t" DType.BF16 [1, 2, 3] (by decide)

/-- Claim C5 (amended): `AnalyzeTensor` succeeds exactly for the five
dispatched DTypes `F16`, `BF16`, `F32`, `I32`, `U32`; `F8E4M3` and `F8E5M2`
(the only other members of the closed enumeration) hit the `default` branch
and return the unsupported-dtype error. -/
theorem c5_supported_dtypes (name : String) (dt : DType) (data : List ℕ) :
    (∃ a, analyzeTensor name dt data = .ok a) ↔
      dt ∈ [DType.F16, DType.BF16, DType.F32, DType.I32, DType.U32] := by
  cases dt <;> simp [analyzeTensor]

/-- Counterexample to claim C5 as stated: an `F8E4M3` tensor is not analyzed
— `AnalyzeTensor` returns the unsupported-dtype error (and likewise for
`F8E5M2`). -/
theorem c5_f8_rejected :
    analyzeTensor "t" DType.F8E4M3 [0] =
      .error ("t" ++ ": TODO implement support for dtype") ∧
    analyzeTensor "t" DType.F8E5M2 [0] =
      .error ("t" ++ ": TODO implement support for dtype") :=
  ⟨rfl, rfl⟩

/-! ## Per-element classification of the sweep loops

These predicates name the branch conditions of the sweep loops, element by
element; the `Step` lemmas below show that each loop iteration updates its
tallies according to them. -/

/-- The BF16 element decodes to a NaN. -/
abbrev bf16NaN (p : ℕ) : Prop := f32IsNaNb (bf16Float32bits p) = true

/-- The BF16 element is counted as infinite-like:
`IsInf ∨ v < -1e37 ∨ v > 1e37`, tested only when the element is not NaN. -/
abbrev bf16InfLike (p : ℕ) : Prop :=
  ¬bf16NaN p ∧ (f32IsInfb (bf16Float32bits p) = true ∨
    f32Val (bf16Float32bits p) < -infThreshold ∨
    infThreshold < f32Val (bf16Float32bits p))

/-- The BF16 element reaches the accumulation branch. -/
abbrev bf16Fin (p : ℕ) : Prop :=
  ¬bf16NaN p ∧ ¬(f32IsInfb (bf16Float32bits p) = true ∨
    f32Val (bf16Float32bits p) < -infThreshold ∨
    infThreshold < f32Val (bf16Float32bits p))

/-- The F16 element decodes to a NaN. -/
abbrev f16NaN (p : ℕ) : Prop := f32IsNaNb (f16Float32bits p) = true

/-- The F16 element is counted as infinite-like.  Go's condition
`math.IsInf(v,0) || v < -1e37 && v > 1e37` is
`IsInf ∨ (v < -1e37 ∧ v > 1e37)`. -/
abbrev f16InfLike (p : ℕ) : Prop :=
  ¬f16NaN p ∧ (f32IsInfb (f16Float32bits p) = true ∨
    (f32Val (f16Float32bits p) < -infThreshold ∧
      infThreshold < f32Val (f16Float32bits p)))

/-- The F16 element reaches the accumulation branch. -/
abbrev f16Fin (p : ℕ) : Prop :=
  ¬f16NaN p ∧ ¬(f32IsInfb (f16Float32bits p) = true ∨
    (f32Val (f16Float32bits p) < -infThreshold ∧
      infThreshold < f32Val (f16Float32bits p)))

/-- The F32 element is a NaN pattern. -/
abbrev f32NaN (p : ℕ) : Prop := f32IsNaNb p = true

/-- The F32 element is counted as infinite-like. -/
abbrev f32InfLike (p : ℕ) : Prop :=
  ¬f32NaN p ∧ (f32IsInfb p = true ∨ f32Val p < -infThreshold ∨
    infThreshold < f32Val p)

theorem bf16Step_nan (s : FloatSweep) (p : ℕ) :
    (bf16Step s p).nan = s.nan + (if bf16NaN p then 1 else 0) := by
  simp only [bf16Step]
  by_cases h1 : f32IsNaNb (bf16Float32bits p) = true
  · rw [if_pos h1, if_pos (show bf16NaN p from h1)]
  · rw [if_neg h1, if_neg (show ¬bf16NaN p from h1), apply_ite FloatSweep.nan]
    simp

theorem bf16Step_inf (s : FloatSweep) (p : ℕ) :
    (bf16Step s p).inf = s.inf + (if bf16InfLike p then 1 else 0) := by
  simp only [bf16Step]
  by_cases h1 : f32IsNaNb (bf16Float32bits p) = true
  · rw [if_pos h1, if_neg (show ¬bf16InfLike p from fun h => h.1 h1)]
    simp
  · by_cases h2 : f32IsInfb (bf16Float32bits p) = true ∨
        f32Val (bf16Float32bits p) < -infThreshold ∨
        infThreshold < f32Val (bf16Float32bits p)
    · rw [if_neg h1, if_pos h2, if_pos (show bf16InfLike p from ⟨h1, h2⟩)]
    · rw [if_neg h1, if_neg h2,
        if_neg (show ¬bf16InfLike p from fun h => h2 h.2)]
      simp

theorem bf16Step_total (s : FloatSweep) (p : ℕ) :
    (bf16Step s p).total =
      s.total + (if bf16Fin p then f32Val (bf16Float32bits p) else 0) := by
  simp only [bf16Step]
  by_cases h1 : f32IsNaNb (bf16Float32bits p) = true
  · rw [if_pos h1, if_neg (show ¬bf16Fin p from fun h => h.1 h1)]
    simp
  · by_cases h2 : f32IsInfb (bf16Float32bits p) = true ∨
        f32Val (bf16Float32bits p) < -infThreshold ∨
        infThreshold < f32Val (bf16Float32bits p)
    · rw [if_neg h1, if_pos h2, if_neg (show ¬bf16Fin p from fun h => h.2 h2)]
      simp
    · rw [if_neg h1, if_neg h2, if_pos (show bf16Fin p from ⟨h1, h2⟩)]

theorem f16Step_nan (s : FloatSweep) (p : ℕ) :
    (f16Step s p).nan = s.nan + (if f16NaN p then 1 else 0) := by
  simp only [f16Step]
  by_cases h1 : f32IsNaNb (f16Float32bits p) = true
  · rw [if_pos h1, if_pos (show f16NaN p from h1)]
  · rw [if_neg h1, if_neg (show ¬f16NaN p from h1), apply_ite FloatSweep.nan]
    simp

theorem f16Step_inf (s : FloatSweep) (p : ℕ) :
    (f16Step s p).inf = s.inf + (if f16InfLike p then 1 else 0) := by
  simp only [f16Step]
  by_cases h1 : f32IsNaNb (f16Float32bits p) = true
  · rw [if_pos h1, if_neg (show ¬f16InfLike p from fun h => h.1 h1)]
    simp
  · by_cases h2 : f32IsInfb (f16Float32bits p) = true ∨
        (f32Val (f16Float32bits p) < -infThreshold ∧
          infThreshold < f32Val (f16Float32bits p))
    · rw [if_neg h1, if_pos h2, if_pos (show f16InfLike p from ⟨h1, h2⟩)]
    · rw [if_neg h1, if_neg h2,
        if_neg (show ¬f16InfLike p from fun h => h2 h.2)]
      simp

theorem f16Step_total (s : FloatSweep) (p : ℕ) :
    (f16Step s p).total =
      s.total + (if f16Fin p then f32Val (f16Float32bits p) else 0) := by
  simp only [f16Step]
  by_cases h1 : f32IsNaNb (f16Float32bits p) = true
  · rw [if_pos h1, if_neg (show ¬f16Fin p from fun h => h.1 h1)]
    simp
  · by_cases h2 : f32IsInfb (f16Float32bits p) = true ∨
        (f32Val (f16Float32bits p) < -infThreshold ∧
          infThreshold < f32Val (f16Float32bits p))
    · rw [if_neg h1, if_pos h2, if_neg (show ¬f16Fin p from fun h => h.2 h2)]
      simp
    · rw [if_neg h1, if_neg h2, if_pos (show f16Fin p from ⟨h1, h2⟩)]

theorem f32Step_nan (s : FloatSweep) (p : ℕ) :
    (f32Step s p).nan = s.nan + (if f32NaN p then 1 else 0) := by
  simp only [f32Step]
  by_cases h1 : f32IsNaNb p = true
  · rw [if_pos h1, if_pos (show f32NaN p from h1)]
  · rw [if_neg h1, if_neg (show ¬f32NaN p from h1), apply_ite FloatSweep.nan]
    simp

theorem f32Step_inf (s : FloatSweep) (p : ℕ) :
    (f32Step s p).inf = s.inf + (if f32InfLike p then 1 else 0) := by
  simp only [f32Step]
  by_cases h1 : f32IsNaNb p = true
  · rw [if_pos h1, if_neg (show ¬f32InfLike p from fun h => h.1 h1)]
    simp
  · by_cases h2 : f32IsInfb p = true ∨ f32Val p < -infThreshold ∨
        infThreshold < f32Val p
    · rw [if_neg h1, if_pos h2, if_pos (show f32InfLike p from ⟨h1, h2⟩)]
    · rw [if_neg h1, if_neg h2,
        if_neg (show ¬f32InfLike p from fun h => h2 h.2)]
      simp

/-- The F32 loop never touches `total` (faithful to the source: the
accumulation statement is absent). -/
theorem f32Step_total (s : FloatSweep) (p : ℕ) :
    (f32Step s p).total = s.total := by
  simp only [f32Step]
  split_ifs <;> rfl

/-- Generic fold lemma: a statistic that each step increments by `1` exactly
on the elements satisfying `g` ends at its start value plus the count of
elements satisfying `g`. -/
theorem foldl_stat_count {σ : Type} (step : σ → ℕ → σ) (stat : σ → ℕ)
    (g : ℕ → Prop) [DecidablePred g]
    (hstep : ∀ s p, stat (step s p) = stat s + (if g p then 1 else 0)) :
    ∀ (l : List ℕ) (s : σ),
      stat (l.foldl step s) = stat s + l.countP (fun p => decide (g p)) := by
  intro l
  induction l with
  | nil => simp
  | cons p l ih =>
    intro s
    rw [List.foldl_cons, ih, hstep, List.countP_cons]
    by_cases hg : g p <;> simp [hg] <;> omega

/-- Generic fold lemma: a statistic that each step increases by `f p` exactly
on the elements satisfying `g` ends at its start value plus the sum of `f`
over the elements satisfying `g`. -/
theorem foldl_stat_sum {σ : Type} (step : σ → ℕ → σ) (stat : σ → ℚ)
    (g : ℕ → Prop) [DecidablePred g] (f : ℕ → ℚ)
    (hstep : ∀ s p, stat (step s p) = stat s + (if g p then f p else 0)) :
    ∀ (l : List ℕ) (s : σ),
      stat (l.foldl step s) =
        stat s + ((l.filter fun p => decide (g p)).map f).sum := by
  intro l
  induction l with
  | nil => simp
  | cons p l ih =>
    intro s
    rw [List.foldl_cons, ih, hstep, List.filter_cons]
    by_cases hg : g p
    · rw [if_pos hg, if_pos (decide_eq_true hg)]
      simp only [List.map_cons, List.sum_cons]
      ring
    · rw [if_neg hg, if_neg (show ¬decide (g p) = true from by simpa using hg)]
      ring

/-- The sum of the decoded values of the BF16 elements that reach the
accumulation branch (the elements the sweep classifies as finite). -/
def bf16FiniteSum (data : List ℕ) : ℚ :=
  (((words16 data).filter fun p => decide (bf16Fin p)).map
    fun p => f32Val (bf16Float32bits p)).sum

/-- The analogous finite sum over the F16 elements. -/
def f16FiniteSum (data : List ℕ) : ℚ :=
  (((words16 data).filter fun p => decide (f16Fin p)).map
    fun p => f32Val (f16Float32bits p)).sum

theorem bf16_fold_total (data : List ℕ) :
    ((words16 data).foldl bf16Step (floatSweepInit 8 7)).total =
      bf16FiniteSum data := by
  rw [foldl_stat_sum bf16Step FloatSweep.total bf16Fin
    (fun p => f32Val (bf16Float32bits p)) bf16Step_total (words16 data)
    (floatSweepInit 8 7)]
  simp [floatSweepInit, bf16FiniteSum]

theorem f16_fold_total (data : List ℕ) :
    ((words16 data).foldl f16Step (floatSweepInit 5 10)).total =
      f16FiniteSum data := by
  rw [foldl_stat_sum f16Step FloatSweep.total f16Fin
    (fun p => f32Val (f16Float32bits p)) f16Step_total (words16 data)
    (floatSweepInit 5 10)]
  simp [floatSweepInit, f16FiniteSum]

theorem f32_fold_total (data : List ℕ) :
    ((words32 data).foldl f32Step (floatSweepInit 8 23)).total = 0 := by
  have h := foldl_stat_sum f32Step FloatSweep.total (fun _ => False)
    (fun p => f32Val p) (fun s p => by rw [f32Step_total]; simp)
    (words32 data) (floatSweepInit 8 23)
  simpa [floatSweepInit] using h

/-- Claim C1 (amended): the returned `Avg` is the sum of the decoded values
of the elements classified as finite divided by the TOTAL element count
`numEl` (not by the finite count) for F16 and BF16; for F32 the loop never
accumulates the sum, so `Avg = 0` on every tensor; and a non-empty all-NaN
BF16 tensor still yields `Avg = 0` (its finite sum is empty) with no
division by zero.  The non-emptiness hypothesis keeps the statement inside
the exact-rational model (Go returns `0.0/0.0 = NaN` on an empty buffer). -/
theorem c1_avg_division (name : String) (data : List ℕ)
    (h4 : 4 ≤ data.length) :
    (∃ a, analyzeTensor name DType.BF16 data = .ok a ∧
      a.avg = bf16FiniteSum data / (data.length / 2 : ℕ)) ∧
    (∃ a, analyzeTensor name DType.F16 data = .ok a ∧
      a.avg = f16FiniteSum data / (data.length / 2 : ℕ)) ∧
    (∃ a, analyzeTensor name DType.F32 data = .ok a ∧ a.avg = 0) ∧
    ((∀ p ∈ words16 data, bf16NaN p) →
      ∃ a, analyzeTensor name DType.BF16 data = .ok a ∧ a.avg = 0) := by
  refine ⟨⟨_, rfl, ?_⟩, ⟨_, rfl, ?_⟩, ⟨_, rfl, ?_⟩, fun hnan => ⟨_, rfl, ?_⟩⟩
  · show ((words16 data).foldl bf16Step (floatSweepInit 8 7)).total / _ = _
    rw [bf16_fold_total]
    rfl
  · show ((words16 data).foldl f16Step (floatSweepInit 5 10)).total / _ = _
    rw [f16_fold_total]
    rfl
  · show ((words32 data).foldl f32Step (floatSweepInit 8 23)).total / _ = 0
    rw [f32_fold_total, zero_div]
  · show ((words16 data).foldl bf16Step (floatSweepInit 8 7)).total / _ = 0
    rw [bf16_fold_total]
    have hnil : ((words16 data).filter fun p => decide (bf16Fin p)) = [] := by
      rw [List.filter_eq_nil_iff]
      intro p hp
      have hN := hnan p hp
      simp only [decide_eq_true_eq]
      exact fun h => h.1 hN
    rw [bf16FiniteSum, hnil]
    simp

/-- Witness for C1 at a concrete input (four zero bytes). -/
theorem c1_avg_division_witness :
    (∃ a, analyzeTensor "t" DType.BF16 [0, 0, 0, 0] = .ok a ∧
      a.avg = bf16FiniteSum [0, 0, 0, 0] /
        (([0, 0, 0, 0] : List ℕ).length / 2 : ℕ)) ∧
    (∃ a, analyzeTensor "t" DType.F16 [0, 0, 0, 0] = .ok a ∧
      a.avg = f16FiniteSum [0, 0, 0, 0] /
        (([0, 0, 0, 0] : List ℕ).length / 2 : ℕ)) ∧
    (∃ a, analyzeTensor "t" DType.F32 [0, 0, 0, 0] = .ok a ∧ a.avg = 0) ∧
    ((∀ p ∈ words16 [0, 0, 0, 0], bf16NaN p) →
      ∃ a, analyzeTensor "t" DType.BF16 [0, 0, 0, 0] = .ok a ∧ a.avg = 0) :=
  c1_avg_division "t" [0, 0, 0, 0] (by decide)

/-- Counterexample to claim C1 as stated.  A BF16 tensor holding `1.0`
(`0x3F80`, bytes `80 3F`) and a NaN (`0x7FC0`, bytes `C0 7F`) has one finite
element of sum 1, so the claimed `Avg = sum / max(1, finiteCount)` is `1`;
the code divides by the total element count and returns `1/2`.  A
single-element F32 tensor holding `1.0` (bytes `00 00 80 3F`) has claimed
`Avg = 1` (the arithmetic mean of its finite elements); the code never
accumulates the F32 sum and returns `0`. -/
theorem c1_divisor_and_f32_sum_counterexample :
    (∃ a, analyzeTensor "t" DType.BF16 [0x80, 0x3F, 0xC0, 0x7F] = .ok a ∧
      a.avg = 1 / 2) ∧
    bf16FiniteSum [0x80, 0x3F, 0xC0, 0x7F] /
      (max 1 ((words16 [0x80, 0x3F, 0xC0, 0x7F]).countP
        fun p => decide (bf16Fin p)) : ℕ) = 1 ∧
    (∃ a, analyzeTensor "t" DType.F32 [0, 0, 0x80, 0x3F] = .ok a ∧
      a.avg = 0) ∧
    (1 : ℚ) / 2 ≠ 1 ∧ (0 : ℚ) ≠ 1 := by
  have hb1 : bf16Float32bits 0x3F80 = 0x3F800000 := by decide
  have hb2 : bf16Float32bits 0x7FC0 = 0x7FC00000 := by decide
  have hval1 : f32Val 0x3F800000 = 1 := by
    norm_num [f32Val, f32SignField, f32ExpField, f32ManField,
      Nat.shiftRight_eq_div_pow]
  have hfin1 : bf16Fin 0x3F80 := by
    rw [bf16Fin, bf16NaN, hb1, hval1]
    norm_num [infThreshold]
    decide
  have hnotfin2 : ¬bf16Fin 0x7FC0 := by
    rw [bf16Fin, bf16NaN, hb2]
    intro h
    exact h.1 (by decide)
  have hw : words16 [0x80, 0x3F, 0xC0, 0x7F] = [0x3F80, 0x7FC0] := by decide
  have hsum : bf16FiniteSum [0x80, 0x3F, 0xC0, 0x7F] = 1 := by
    rw [bf16FiniteSum, hw, List.filter_cons, List.filter_cons,
      if_pos (decide_eq_true hfin1),
      if_neg (show ¬decide (bf16Fin 0x7FC0) = true from by
        simpa using hnotfin2)]
    simp [hb1, hval1]
  have hcnt : ((words16 [0x80, 0x3F, 0xC0, 0x7F]).countP
      fun p => decide (bf16Fin p)) = 1 := by
    rw [hw, List.countP_cons, List.countP_cons, List.countP_nil,
      if_pos (decide_eq_true hfin1),
      if_neg (show ¬decide (bf16Fin 0x7FC0) = true from by
        simpa using hnotfin2)]
  refine ⟨⟨_, rfl, ?_⟩, ?_, ⟨_, rfl, ?_⟩, by norm_num, by norm_num⟩
  · show ((words16 [0x80, 0x3F, 0xC0, 0x7F]).foldl bf16Step
      (floatSweepInit 8 7)).total / _ = 1 / 2
    rw [bf16_fold_total, hsum]
    norm_num [DType.wordSize]
  · rw [hsum, hcnt]
    norm_num
  · show ((words32 [0, 0, 0x80, 0x3F]).foldl f32Step
      (floatSweepInit 8 23)).total / _ = 0
    rw [f32_fold_total, zero_div]

/-! ## The NaN / infinite-like classification (claim C7) -/

/-- The classification the spec describes: not NaN, and infinite or of
magnitude above `10^37`. -/
abbrev claimInfLike (v : ℕ) : Prop :=
  ¬f32IsNaNb v = true ∧ (f32IsInfb v = true ∨ infThreshold < |f32Val v|)

theorem words16_lt : ∀ (data : List ℕ), (∀ b ∈ data, b < 256) →
    ∀ p ∈ words16 data, p < 2 ^ 16
  | [], _, p, hp => by simp [words16] at hp
  | [_], _, p, hp => by simp [words16] at hp
  | b0 :: b1 :: rest, hb, p, hp => by
    rw [words16] at hp
    rcases List.mem_cons.mp hp with rfl | hmem
    · have h0 := hb b0 (by simp)
      have h1 := hb b1 (by simp)
      omega
    · exact words16_lt rest (fun x hx => hb x (by simp [hx])) p hmem

theorem countP_congr_mem (l : List ℕ) (p q : ℕ → Bool)
    (h : ∀ x ∈ l, p x = q x) : l.countP p = l.countP q := by
  induction l with
  | nil => rfl
  | cons a l ih =>
    rw [List.countP_cons, List.countP_cons, h a (List.mem_cons_self a l),
      ih fun x hx => h x (List.mem_cons_of_mem _ hx)]

section

set_option maxRecDepth 100000
set_option maxHeartbeats 16000000

/-- Exhaustive check of F16 patterns 0..4095: the decoded
exponent field is either all-ones (NaN/Inf) or at most 142. -/
theorem f16_aux_0 : ∀ hi, hi < 16 → ∀ lo, lo < 256 →
    (f32ExpField (f16Float32bits (4096 * 0 + 256 * hi + lo)) = 255 ∨
     f32ExpField (f16Float32bits (4096 * 0 + 256 * hi + lo)) ≤ 142) := by decide

/-- Exhaustive check of F16 patterns 4096..8191: the decoded
exponent field is either all-ones (NaN/Inf) or at most 142. -/
theorem f16_aux_1 : ∀ hi, hi < 16 → ∀ lo, lo < 256 →
    (f32ExpField (f16Float32bits (4096 * 1 + 256 * hi + lo)) = 255 ∨
     f32ExpField (f16Float32bits (4096 * 1 + 256 * hi + lo)) ≤ 142) := by decide

/-- Exhaustive check of F16 patterns 8192..12287: the decoded
exponent field is either all-ones (NaN/Inf) or at most 142. -/
theorem f16_aux_2 : ∀ hi, hi < 16 → ∀ lo, lo < 256 →
    (f32ExpField (f16Float32bits (4096 * 2 + 256 * hi + lo)) = 255 ∨
     f32ExpField (f16Float32bits (4096 * 2 + 256 * hi + lo)) ≤ 142) := by decide

/-- Exhaustive check of F16 patterns 12288..16383: the decoded
exponent field is either all-ones (NaN/Inf) or at most 142. -/
theorem f16_aux_3 : ∀ hi, hi < 16 → ∀ lo, lo < 256 →
    (f32ExpField (f16Float32bits (4096 * 3 + 256 * hi + lo)) = 255 ∨
     f32ExpField (f16Float32bits (4096 * 3 + 256 * hi + lo)) ≤ 142) := by decide

/-- Exhaustive check of F16 patterns 16384..20479: the decoded
exponent field is either all-ones (NaN/Inf) or at most 142. -/
theorem f16_aux_4 : ∀ hi, hi < 16 → ∀ lo, lo < 256 →
    (f32ExpField (f16Float32bits (4096 * 4 + 256 * hi + lo)) = 255 ∨
     f32ExpField (f16Float32bits (4096 * 4 + 256 * hi + lo)) ≤ 142) := by decide

/-- Exhaustive check of F16 patterns 20480..24575: the decoded
exponent field is either all-ones (NaN/Inf) or at most 142. -/
theorem f16_aux_5 : ∀ hi, hi < 16 → ∀ lo, lo < 256 →
    (f32ExpField (f16Float32bits (4096 * 5 + 256 * hi + lo)) = 255 ∨
     f32ExpField (f16Float32bits (4096 * 5 + 256 * hi + lo)) ≤ 142) := by decide

/-- Exhaustive check of F16 patterns 24576..28671: the decoded
exponent field is either all-ones (NaN/Inf) or at most 142. -/
theorem f16_aux_6 : ∀ hi, hi < 16 → ∀ lo, lo < 256 →
    (f32ExpField (f16Float32bits (4096 * 6 + 256 * hi + lo)) = 255 ∨
     f32ExpField (f16Float32bits (4096 * 6 + 256 * hi + lo)) ≤ 142) := by decide

/-- Exhaustive check of F16 patterns 28672..32767: the decoded
exponent field is either all-ones (NaN/Inf) or at most 142. -/
theorem f16_aux_7 : ∀ hi, hi < 16 → ∀ lo, lo < 256 →
    (f32ExpField (f16Float32bits (4096 * 7 + 256 * hi + lo)) = 255 ∨
     f32ExpField (f16Float32bits (4096 * 7 + 256 * hi + lo)) ≤ 142) := by decide

/-- Exhaustive check of F16 patterns 32768..36863: the decoded
exponent field is either all-ones (NaN/Inf) or at most 142. -/
theorem f16_aux_8 : ∀ hi, hi < 16 → ∀ lo, lo < 256 →
    (f32ExpField (f16Float32bits (4096 * 8 + 256 * hi + lo)) = 255 ∨
     f32ExpField (f16Float32bits (4096 * 8 + 256 * hi + lo)) ≤ 142) := by decide

/-- Exhaustive check of F16 patterns 36864..40959: the decoded
exponent field is either all-ones (NaN/Inf) or at most 142. -/
theorem f16_aux_9 : ∀ hi, hi < 16 → ∀ lo, lo < 256 →
    (f32ExpField (f16Float32bits (4096 * 9 + 256 * hi + lo)) = 255 ∨
     f32ExpField (f16Float32bits (4096 * 9 + 256 * hi + lo)) ≤ 142) := by decide

/-- Exhaustive check of F16 patterns 40960..45055: the decoded
exponent field is either all-ones (NaN/Inf) or at most 142. -/
theorem f16_aux_10 : ∀ hi, hi < 16 → ∀ lo, lo < 256 →
    (f32ExpField (f16Float32bits (4096 * 10 + 256 * hi + lo)) = 255 ∨
     f32ExpField (f16Float32bits (4096 * 10 + 256 * hi + lo)) ≤ 142) := by decide

/-- Exhaustive check of F16 patterns 45056..49151: the decoded
exponent field is either all-ones (NaN/Inf) or at most 142. -/
theorem f16_aux_11 : ∀ hi, hi < 16 → ∀ lo, lo < 256 →
    (f32ExpField (f16Float32bits (4096 * 11 + 256 * hi + lo)) = 255 ∨
     f32ExpField (f16Float32bits (4096 * 11 + 256 * hi + lo)) ≤ 142) := by decide

/-- Exhaustive check of F16 patterns 49152..53247: the decoded
exponent field is either all-ones (NaN/Inf) or at most 142. -/
theorem f16_aux_12 : ∀ hi, hi < 16 → ∀ lo, lo < 256 →
    (f32ExpField (f16Float32bits (4096 * 12 + 256 * hi + lo)) = 255 ∨
     f32ExpField (f16Float32bits (4096 * 12 + 256 * hi + lo)) ≤ 142) := by decide

/-- Exhaustive check of F16 patterns 53248..57343: the decoded
exponent field is either all-ones (NaN/Inf) or at most 142. -/
theorem f16_aux_13 : ∀ hi, hi < 16 → ∀ lo, lo < 256 →
    (f32ExpField (f16Float32bits (4096 * 13 + 256 * hi + lo)) = 255 ∨
     f32ExpField (f16Float32bits (4096 * 13 + 256 * hi + lo)) ≤ 142) := by decide

/-- Exhaustive check of F16 patterns 57344..61439: the decoded
exponent field is either all-ones (NaN/Inf) or at most 142. -/
theorem f16_aux_14 : ∀ hi, hi < 16 → ∀ lo, lo < 256 →
    (f32ExpField (f16Float32bits (4096 * 14 + 256 * hi + lo)) = 255 ∨
     f32ExpField (f16Float32bits (4096 * 14 + 256 * hi + lo)) ≤ 142) := by decide

/-- Exhaustive check of F16 patterns 61440..65535: the decoded
exponent field is either all-ones (NaN/Inf) or at most 142. -/
theorem f16_aux_15 : ∀ hi, hi < 16 → ∀ lo, lo < 256 →
    (f32ExpField (f16Float32bits (4096 * 15 + 256 * hi + lo)) = 255 ∨
     f32ExpField (f16Float32bits (4096 * 15 + 256 * hi + lo)) ≤ 142) := by decide

end

theorem f16_aux_all (k : ℕ) (hk : k < 16) : ∀ hi, hi < 16 → ∀ lo, lo < 256 →
    (f32ExpField (f16Float32bits (4096 * k + 256 * hi + lo)) = 255 ∨
     f32ExpField (f16Float32bits (4096 * k + 256 * hi + lo)) ≤ 142) := by
  interval_cases k
  · exact f16_aux_0
  · exact f16_aux_1
  · exact f16_aux_2
  · exact f16_aux_3
  · exact f16_aux_4
  · exact f16_aux_5
  · exact f16_aux_6
  · exact f16_aux_7
  · exact f16_aux_8
  · exact f16_aux_9
  · exact f16_aux_10
  · exact f16_aux_11
  · exact f16_aux_12
  · exact f16_aux_13
  · exact f16_aux_14
  · exact f16_aux_15

theorem f16_expField_le (p : ℕ) (hp : p < 2 ^ 16) :
    f32ExpField (f16Float32bits p) = 255 ∨
    f32ExpField (f16Float32bits p) ≤ 142 := by
  have h := f16_aux_all (p / 4096) (by omega) (p % 4096 / 256) (by omega)
    (p % 256) (by omega)
  rwa [show 4096 * (p / 4096) + 256 * (p % 4096 / 256) + p % 256 = p from by omega] at h

theorem expField_255_nan_or_inf (v : ℕ) (h : f32ExpField v = 255) :
    f32IsNaNb v = true ∨ f32IsInfb v = true := by
  unfold f32IsNaNb f32IsInfb
  rw [h]
  by_cases hm : f32ManField v = 0 <;> simp [hm]

/-- A float32 pattern whose exponent field is at most 142 has magnitude at
most `2^16`, hence far below the `1e37` threshold. -/
theorem abs_f32Val_le_of_expField_le (b : ℕ) (h : f32ExpField b ≤ 142) :
    |f32Val b| ≤ infThreshold := by
  have hmn : f32ManField b < 2 ^ 23 := Nat.mod_lt b (by norm_num)
  have hm : (f32ManField b : ℚ) < 2 ^ 23 := by exact_mod_cast hmn
  have hsub : (f32ManField b : ℚ) * (2 : ℚ) ^ (-149 : ℤ) ≤ infThreshold := by
    calc (f32ManField b : ℚ) * (2 : ℚ) ^ (-149 : ℤ)
        ≤ 2 ^ 23 * (2 : ℚ) ^ (-149 : ℤ) :=
          mul_le_mul_of_nonneg_right hm.le (by positivity)
      _ ≤ infThreshold := by norm_num [infThreshold]
  have hnorm : (2 ^ 23 + (f32ManField b : ℚ)) *
      (2 : ℚ) ^ ((f32ExpField b : ℤ) - 150) ≤ infThreshold := by
    have h1 : (2 ^ 23 + (f32ManField b : ℚ)) ≤ 2 ^ 24 := by
      linarith [hm.le]
    have h2 : (2 : ℚ) ^ ((f32ExpField b : ℤ) - 150) ≤ (2 : ℚ) ^ (-8 : ℤ) := by
      apply zpow_le_zpow_right₀ (by norm_num)
      have hc : (f32ExpField b : ℤ) ≤ 142 := by exact_mod_cast h
      omega
    calc (2 ^ 23 + (f32ManField b : ℚ)) * (2 : ℚ) ^ ((f32ExpField b : ℤ) - 150)
        ≤ 2 ^ 24 * (2 : ℚ) ^ (-8 : ℤ) :=
          mul_le_mul h1 h2 (by positivity) (by norm_num)
      _ ≤ infThreshold := by norm_num [infThreshold]
  simp only [f32Val]
  by_cases he : f32ExpField b = 0
  · rw [if_pos he]
    by_cases hs : f32SignField b = 0
    · rw [if_pos hs, one_mul, abs_of_nonneg (by positivity)]
      exact hsub
    · rw [if_neg hs]
      have : (-1 : ℚ) * (f32ManField b : ℚ) * (2 : ℚ) ^ (-149 : ℤ) =
          -((f32ManField b : ℚ) * (2 : ℚ) ^ (-149 : ℤ)) := by ring
      rw [this, abs_neg, abs_of_nonneg (by positivity)]
      exact hsub
  · rw [if_neg he]
    by_cases hs : f32SignField b = 0
    · rw [if_pos hs, one_mul, abs_of_nonneg (by positivity)]
      exact hnorm
    · rw [if_neg hs]
      have : (-1 : ℚ) * (2 ^ 23 + (f32ManField b : ℚ)) *
          (2 : ℚ) ^ ((f32ExpField b : ℤ) - 150) =
          -((2 ^ 23 + (f32ManField b : ℚ)) *
            (2 : ℚ) ^ ((f32ExpField b : ℤ) - 150)) := by ring
      rw [this, abs_neg, abs_of_nonneg (by positivity)]
      exact hnorm

theorem bf16InfLike_iff_claimInfLike (p : ℕ) :
    bf16InfLike p ↔ claimInfLike (bf16Float32bits p) := by
  unfold bf16InfLike claimInfLike bf16NaN
  have key : infThreshold < |f32Val (bf16Float32bits p)| ↔
      (f32Val (bf16Float32bits p) < -infThreshold ∨
       infThreshold < f32Val (bf16Float32bits p)) := by
    rw [lt_abs]
    constructor
    · rintro (h | h)
      · right; exact h
      · left; linarith
    · rintro (h | h)
      · right; linarith
      · left; exact h
  rw [key]

theorem f32InfLike_iff_claimInfLike (p : ℕ) :
    f32InfLike p ↔ claimInfLike p := by
  unfold f32InfLike claimInfLike f32NaN
  have key : infThreshold < |f32Val p| ↔
      (f32Val p < -infThreshold ∨ infThreshold < f32Val p) := by
    rw [lt_abs]
    constructor
    · rintro (h | h)
      · right; exact h
      · left; linarith
    · rintro (h | h)
      · right; linarith
      · left; exact h
  rw [key]

/-- For F16 the contradictory conjunction makes the code's test `IsInf`
alone, and no finite F16-decodable value exceeds the threshold, so the two
classifications agree on every 16-bit pattern. -/
theorem f16InfLike_iff_claimInfLike (p : ℕ) (hp : p < 2 ^ 16) :
    f16InfLike p ↔ claimInfLike (f16Float32bits p) := by
  unfold f16InfLike claimInfLike f16NaN
  constructor
  · rintro ⟨h1, h2⟩
    refine ⟨h1, ?_⟩
    rcases h2 with h | ⟨ha, hb⟩
    · exact Or.inl h
    · exfalso
      have hT : (0 : ℚ) < infThreshold := by norm_num [infThreshold]
      linarith
  · rintro ⟨h1, h2⟩
    refine ⟨h1, ?_⟩
    rcases h2 with h | h
    · exact Or.inl h
    · by_cases hinf : f32IsInfb (f16Float32bits p) = true
      · exact Or.inl hinf
      · exfalso
        have hle : f32ExpField (f16Float32bits p) ≤ 142 := by
          rcases f16_expField_le p hp with h255 | hle
          · rcases expField_255_nan_or_inf _ h255 with hx | hx
            · exact absurd hx h1
            · exact absurd hx hinf
          · exact hle
        have := abs_f32Val_le_of_expField_le _ hle
        linarith

/-- Claim C7: in every float sweep the `nan` counter counts exactly the
elements decoding to NaN, and the `inf` counter counts exactly the non-NaN
elements that are infinite or of magnitude above `10^37`; NaN or infinite
content never makes `AnalyzeTensor` fail (each float case returns `.ok`). -/
theorem c7_nan_inf_classification (name : String) (data : List ℕ)
    (hb : ∀ b ∈ data, b < 256) :
    (∃ a, analyzeTensor name DType.F16 data = .ok a ∧
      a.nan = ((words16 data).countP fun p => decide (f16NaN p)) ∧
      a.inf = ((words16 data).countP fun p =>
        decide (claimInfLike (f16Float32bits p)))) ∧
    (∃ a, analyzeTensor name DType.BF16 data = .ok a ∧
      a.nan = ((words16 data).countP fun p => decide (bf16NaN p)) ∧
      a.inf = ((words16 data).countP fun p =>
        decide (claimInfLike (bf16Float32bits p)))) ∧
    (∃ a, analyzeTensor name DType.F32 data = .ok a ∧
      a.nan = ((words32 data).countP fun p => decide (f32NaN p)) ∧
      a.inf = ((words32 data).countP fun p => decide (claimInfLike p))) := by
  refine ⟨⟨_, rfl, ?_, ?_⟩, ⟨_, rfl, ?_, ?_⟩, ⟨_, rfl, ?_, ?_⟩⟩
  · show ((words16 data).foldl f16Step (floatSweepInit 5 10)).nan = _
    rw [foldl_stat_count f16Step FloatSweep.nan f16NaN f16Step_nan
      (words16 data) (floatSweepInit 5 10)]
    simp [floatSweepInit]
  · show ((words16 data).foldl f16Step (floatSweepInit 5 10)).inf = _
    rw [foldl_stat_count f16Step FloatSweep.inf f16InfLike f16Step_inf
      (words16 data) (floatSweepInit 5 10)]
    simp only [floatSweepInit, Nat.zero_add]
    refine countP_congr_mem _ _ _ fun p hp => ?_
    rw [decide_eq_decide]
    exact f16InfLike_iff_claimInfLike p (words16_lt data hb p hp)
  · show ((words16 data).foldl bf16Step (floatSweepInit 8 7)).nan = _
    rw [foldl_stat_count bf16Step FloatSweep.nan bf16NaN bf16Step_nan
      (words16 data) (floatSweepInit 8 7)]
    simp [floatSweepInit]
  · show ((words16 data).foldl bf16Step (floatSweepInit 8 7)).inf = _
    rw [foldl_stat_count bf16Step FloatSweep.inf bf16InfLike bf16Step_inf
      (words16 data) (floatSweepInit 8 7)]
    simp only [floatSweepInit, Nat.zero_add]
    refine countP_congr_mem _ _ _ fun p hp => ?_
    rw [decide_eq_decide]
    exact bf16InfLike_iff_claimInfLike p
  · show ((words32 data).foldl f32Step (floatSweepInit 8 23)).nan = _
    rw [foldl_stat_count f32Step FloatSweep.nan f32NaN f32Step_nan
      (words32 data) (floatSweepInit 8 23)]
    simp [floatSweepInit]
  · show ((words32 data).foldl f32Step (floatSweepInit 8 23)).inf = _
    rw [foldl_stat_count f32Step FloatSweep.inf f32InfLike f32Step_inf
      (words32 data) (floatSweepInit 8 23)]
    simp only [floatSweepInit, Nat.zero_add]
    refine countP_congr_mem _ _ _ fun p hp => ?_
    rw [decide_eq_decide]
    exact f32InfLike_iff_claimInfLike p

/-- Witness for C7 at a concrete input: an F16 +∞ (`0x7C00`, bytes `00 7C`)
next to an F16 NaN (`0x7E00`, bytes `00 7E`). -/
theorem c7_nan_inf_classification_witness :
    (∃ a, analyzeTensor "t" DType.F16 [0, 0x7C, 0, 0x7E] = .ok a ∧
      a.nan = ((words16 [0, 0x7C, 0, 0x7E]).countP fun p => decide (f16NaN p)) ∧
      a.inf = ((words16 [0, 0x7C, 0, 0x7E]).countP fun p =>
        decide (claimInfLike (f16Float32bits p)))) ∧
    (∃ a, analyzeTensor "t" DType.BF16 [0, 0x7C, 0, 0x7E] = .ok a ∧
      a.nan = ((words16 [0, 0x7C, 0, 0x7E]).countP fun p => decide (bf16NaN p)) ∧
      a.inf = ((words16 [0, 0x7C, 0, 0x7E]).countP fun p =>
        decide (claimInfLike (bf16Float32bits p)))) ∧
    (∃ a, analyzeTensor "t" DType.F32 [0, 0x7C, 0, 0x7E] = .ok a ∧
      a.nan = ((words32 [0, 0x7C, 0, 0x7E]).countP fun p => decide (f32NaN p)) ∧
      a.inf = ((words32 [0, 0x7C, 0, 0x7E]).countP fun p =>
        decide (claimInfLike p))) :=
  c7_nan_inf_classification "t" [0, 0x7C, 0, 0x7E] (by decide)

/-! ## Histogram invariants (claim C8) -/

theorem csAdd_length (c : CountSet) (i : ℕ) : (csAdd c i).length = c.length := by
  unfold csAdd
  split_ifs <;> simp

theorem csEffective_le_length (c : CountSet) : csEffective c ≤ c.length :=
  List.countP_le_length _

theorem csEffective_pos_of_getD (c : CountSet) (j : ℕ) (hj : j < c.length)
    (h : c.getD j 0 ≠ 0) : 1 ≤ csEffective c := by
  have hmem : c.getD j 0 ∈ c := by
    rw [List.getD_eq_getElem c 0 hj]
    exact List.getElem_mem hj
  have : ∃ a ∈ c, (a != 0) = true := ⟨c.getD j 0, hmem, by simpa using h⟩
  exact List.countP_pos_iff.mpr this

theorem csEffective_csAdd_pos (c : CountSet) (i : ℕ) (hi : i < c.length) :
    1 ≤ csEffective (csAdd c i) := by
  unfold csAdd
  by_cases h : c.getD i 0 = 255
  · rw [if_pos h]
    exact csEffective_pos_of_getD c i hi (by rw [h]; norm_num)
  · rw [if_neg h]
    refine csEffective_pos_of_getD _ i (by simpa using hi) ?_
    rw [getD_set_self c i _ hi]
    omega

theorem csEffective_csAdd_mono (c : CountSet) (i : ℕ) :
    csEffective c ≤ csEffective (csAdd c i) := by
  unfold csAdd
  by_cases h : c.getD i 0 = 255
  · rw [if_pos h]
  · rw [if_neg h]
    by_cases hi : i < c.length
    · have e := countP_set_exchange (· != 0) c i (c.getD i 0 + 1) hi
      have hone : ((c.getD i 0 + 1 : ℕ) != 0) = true := by simp
      simp only [hone, if_true] at e
      unfold csEffective
      by_cases hq : (c.getD i 0 != 0) = true
      · rw [if_pos hq] at e
        omega
      · rw [if_neg hq] at e
        omega
    · rw [List.set_eq_of_length_le (by omega)]

/-- Generic fold lemma for a CountSet-valued component that each step updates
with `csAdd` at `idx p`: its length is preserved, its `Effective` count never
decreases, and it is at least 1 after a non-empty in-range sweep. -/
theorem fold_countset_proj {σ : Type} (step : σ → ℕ → σ) (proj : σ → CountSet)
    (idx : ℕ → ℕ) (hstep : ∀ s p, proj (step s p) = csAdd (proj s) (idx p)) :
    ∀ (l : List ℕ) (s : σ),
      (proj (l.foldl step s)).length = (proj s).length ∧
      csEffective (proj s) ≤ csEffective (proj (l.foldl step s)) ∧
      (l ≠ [] → (∀ p ∈ l, idx p < (proj s).length) →
        1 ≤ csEffective (proj (l.foldl step s))) := by
  intro l
  induction l with
  | nil => exact fun s => ⟨rfl, le_refl _, fun h _ => absurd rfl h⟩
  | cons p l ih =>
    intro s
    rw [List.foldl_cons]
    obtain ⟨ihlen, ihmono, _⟩ := ih (step s p)
    have hstepped := hstep s p
    refine ⟨by rw [ihlen, hstepped, csAdd_length], ?_, ?_⟩
    · calc csEffective (proj s) ≤ csEffective (csAdd (proj s) (idx p)) :=
        csEffective_csAdd_mono _ _
      _ = csEffective (proj (step s p)) := by rw [hstepped]
      _ ≤ _ := ihmono
    · intro _ hidx
      have hpos1 : 1 ≤ csEffective (proj (step s p)) := by
        rw [hstepped]
        exact csEffective_csAdd_pos _ _ (hidx p (List.mem_cons_self p l))
      exact le_trans hpos1 ihmono

theorem lor_ne_zero_right (x y : ℕ) (hy : y ≠ 0) : x ||| y ≠ 0 := fun h =>
  hy (Nat.eq_of_testBit_eq fun k => by
    have h1 : (x ||| y).testBit k = false := by
      rw [h]
      exact Nat.zero_testBit k
    rw [Nat.testBit_lor] at h1
    rw [Nat.zero_testBit]
    exact (Bool.or_eq_false_iff.mp h1).2)

/-- Witness that some word of the bitset is non-zero. -/
def bitsNonzero (b : BitSet) : Prop :=
  ∃ j, j < b.bits.length ∧ b.bits.getD j 0 ≠ 0

theorem bsSet_bits_length (b : BitSet) (i : ℕ) :
    (bsSet b i).bits.length = b.bits.length := by
  simp [bsSet]

theorem bsSet_establish (b : BitSet) (i : ℕ) (hi : i / 64 < b.bits.length) :
    bitsNonzero (bsSet b i) := by
  refine ⟨i / 64, by simpa [bsSet] using hi, ?_⟩
  show (b.bits.set (i / 64) (b.bits.getD (i / 64) 0 ||| 1 <<< (i % 64))).getD
    (i / 64) 0 ≠ 0
  rw [getD_set_self _ _ _ hi]
  apply lor_ne_zero_right
  intro h
  rw [Nat.shiftLeft_eq, one_mul] at h
  exact (pow_pos (show 0 < 2 by norm_num) (i % 64)).ne' h

theorem bsSet_preserve (b : BitSet) (i : ℕ) (h : bitsNonzero b) :
    bitsNonzero (bsSet b i) := by
  obtain ⟨j, hj, hnz⟩ := h
  by_cases hij : i / 64 = j
  · exact bsSet_establish b i (hij ▸ hj)
  · refine ⟨j, by simpa [bsSet] using hj, ?_⟩
    show (b.bits.set (i / 64) _).getD j 0 ≠ 0
    rw [getD_set_ne _ _ _ _ hij]
    exact hnz

theorem bsSet_wf (b : BitSet) (i : ℕ) (hw : ∀ w ∈ b.bits, w < 2 ^ 64) :
    ∀ w ∈ (bsSet b i).bits, w < 2 ^ 64 := by
  intro w hwmem
  simp only [bsSet] at hwmem
  rcases List.mem_or_eq_of_mem_set hwmem with hmem | heq
  · exact hw w hmem
  · subst heq
    have h2 : (1 <<< (i % 64) : ℕ) < 2 ^ 64 := by
      rw [Nat.shiftLeft_eq, one_mul]
      exact Nat.pow_lt_pow_right (by norm_num) (Nat.mod_lt i (by norm_num))
    have h1 : b.bits.getD (i / 64) 0 < 2 ^ 64 := by
      by_cases hi : i / 64 < b.bits.length
      · refine hw _ ?_
        rw [List.getD_eq_getElem b.bits 0 hi]
        exact List.getElem_mem hi
      · rw [List.getD_eq_default b.bits 0 (by omega)]
        norm_num
    exact Nat.or_lt_two_pow h1 h2

theorem popCount_le (fuel : ℕ) : ∀ n, popCount fuel n ≤ fuel := by
  induction fuel with
  | zero => intro n; rw [popCount]
  | succ f ih =>
    intro n
    rw [popCount]
    have := ih (n / 2)
    omega

theorem popCount_eq_zero (fuel : ℕ) : ∀ n, popCount fuel n = 0 ↔ n % 2 ^ fuel = 0 := by
  induction fuel with
  | zero => intro n; simp [popCount, Nat.mod_one]
  | succ f ih =>
    intro n
    rw [popCount, pow_succ', Nat.mod_mul]
    constructor
    · intro h
      rcases Nat.add_eq_zero.mp h with ⟨h1, h2⟩
      rw [h1, (ih (n / 2)).mp h2]
    · intro h
      rcases Nat.add_eq_zero.mp h with ⟨h1, h2⟩
      rcases Nat.mul_eq_zero.mp h2 with h3 | h3
      · norm_num at h3
      · rw [h1, (ih (n / 2)).mpr h3, Nat.add_zero]

theorem popCount_pos (n : ℕ) (h0 : n ≠ 0) (hn : n < 2 ^ 64) :
    0 < popCount 64 n := by
  rcases Nat.eq_zero_or_pos (popCount 64 n) with h | h
  · exfalso
    have hz := (popCount_eq_zero 64 n).mp h
    rw [Nat.mod_eq_of_lt hn] at hz
    exact h0 hz
  · exact h

theorem sum_popCount_le : ∀ (ws : List ℕ),
    (ws.map (popCount 64)).sum ≤ 64 * ws.length := by
  intro ws
  induction ws with
  | nil => simp
  | cons w ws ih =>
    simp only [List.map_cons, List.sum_cons, List.length_cons]
    have := popCount_le 64 w
    omega

theorem bsEffective_le (b : BitSet) : bsEffective b ≤ 64 * b.bits.length :=
  sum_popCount_le b.bits

theorem bsEffective_pos (b : BitSet) (hw : ∀ w ∈ b.bits, w < 2 ^ 64)
    (h : bitsNonzero b) : 1 ≤ bsEffective b := by
  obtain ⟨j, hj, hnz⟩ := h
  have hmem : b.bits.getD j 0 ∈ b.bits := by
    rw [List.getD_eq_getElem b.bits 0 hj]
    exact List.getElem_mem hj
  have hpc : 0 < popCount 64 (b.bits.getD j 0) := popCount_pos _ hnz (hw _ hmem)
  have hmm : popCount 64 (b.bits.getD j 0) ∈ b.bits.map (popCount 64) :=
    List.mem_map_of_mem _ hmem
  have := List.single_le_sum (fun x _ => Nat.zero_le x) _ hmm
  unfold bsEffective
  omega

/-- Generic fold lemma for a BitSet-valued component that each step updates
with `bsSet` at `idx p`. -/
theorem fold_bitset_proj {σ : Type} (step : σ → ℕ → σ) (proj : σ → BitSet)
    (idx : ℕ → ℕ) (hstep : ∀ s p, proj (step s p) = bsSet (proj s) (idx p)) :
    ∀ (l : List ℕ) (s : σ),
      (proj (l.foldl step s)).bits.length = (proj s).bits.length ∧
      ((∀ w ∈ (proj s).bits, w < 2 ^ 64) →
        ∀ w ∈ (proj (l.foldl step s)).bits, w < 2 ^ 64) ∧
      (bitsNonzero (proj s) → bitsNonzero (proj (l.foldl step s))) ∧
      (l ≠ [] → (∀ p ∈ l, idx p / 64 < (proj s).bits.length) →
        bitsNonzero (proj (l.foldl step s))) := by
  intro l
  induction l with
  | nil => exact fun s => ⟨rfl, fun h => h, fun h => h, fun h _ => absurd rfl h⟩
  | cons p l ih =>
    intro s
    rw [List.foldl_cons]
    obtain ⟨ihlen, ihwf, ihnz, _⟩ := ih (step s p)
    have hstepped := hstep s p
    have hlen1 : (proj (step s p)).bits.length = (proj s).bits.length := by
      rw [hstepped, bsSet_bits_length]
    refine ⟨by rw [ihlen, hlen1], ?_, ?_, ?_⟩
    · intro hw
      exact ihwf (by rw [hstepped]; exact bsSet_wf _ _ hw)
    · intro hnz
      exact ihnz (by rw [hstepped]; exact bsSet_preserve _ _ hnz)
    · intro _ hidx
      refine ihnz ?_
      rw [hstepped]
      exact bsSet_establish _ _ (hidx p (List.mem_cons_self p l))

/-- The invariant of claim C8 for one bit-kind record. -/
def recordOK (r : BitAlloc) : Prop :=
  1 ≤ r.numberDifferentValuesSeen ∧
  r.numberDifferentValuesSeen ≤ 2 ^ r.getAllocation.toNat ∧
  0 ≤ r.bitsWasted

theorem recordOK_kindCount (a : ℤ) (s : CountSet) (ha : 0 < a)
    (h1 : 1 ≤ csEffective s) (h2 : csEffective s ≤ 2 ^ a.toNat) :
    recordOK (.kindCount a s) := by
  simp only [recordOK, BitAlloc.numberDifferentValuesSeen, BitAlloc.bitsWasted,
    BitAlloc.getAllocation]
  rw [if_neg (show ¬a = 0 by omega)]
  refine ⟨by exact_mod_cast h1, ?_, ?_⟩
  · have : ((csEffective s : ℤ)) ≤ ((2 ^ a.toNat : ℕ) : ℤ) := by exact_mod_cast h2
    simpa using this
  · have hclog : Nat.clog 2 (csEffective s) ≤ a.toNat :=
      (Nat.le_pow_iff_clog_le (by norm_num)).mp h2
    unfold ceilLog2
    omega

theorem recordOK_kindBool (a : ℤ) (b : BitSet) (ha : 0 < a)
    (h1 : 1 ≤ bsEffective b) (h2 : bsEffective b ≤ 2 ^ a.toNat) :
    recordOK (.kindBool a b) := by
  simp only [recordOK, BitAlloc.numberDifferentValuesSeen, BitAlloc.bitsWasted,
    BitAlloc.getAllocation]
  rw [if_neg (show ¬a = 0 by omega)]
  refine ⟨by exact_mod_cast h1, ?_, ?_⟩
  · have : ((bsEffective b : ℤ)) ≤ ((2 ^ a.toNat : ℕ) : ℤ) := by exact_mod_cast h2
    simpa using this
  · have hclog : Nat.clog 2 (bsEffective b) ≤ a.toNat :=
      (Nat.le_pow_iff_clog_le (by norm_num)).mp h2
    unfold ceilLog2
    omega

theorem f16Step_signs (s : FloatSweep) (p : ℕ) :
    (f16Step s p).signs = csAdd s.signs (f16Components p).1 := by
  simp only [f16Step]
  split_ifs <;> rfl

theorem f16Step_exponents (s : FloatSweep) (p : ℕ) :
    (f16Step s p).exponents = csAdd s.exponents (f16Components p).2.1 := by
  simp only [f16Step]
  split_ifs <;> rfl

theorem f16Step_mantissas (s : FloatSweep) (p : ℕ) :
    (f16Step s p).mantissas = bsSet s.mantissas (f16Components p).2.2 := by
  simp only [f16Step]
  split_ifs <;> rfl

theorem bf16Step_signs (s : FloatSweep) (p : ℕ) :
    (bf16Step s p).signs = csAdd s.signs (bf16Components p).1 := by
  simp only [bf16Step]
  split_ifs <;> rfl

theorem bf16Step_exponents (s : FloatSweep) (p : ℕ) :
    (bf16Step s p).exponents = csAdd s.exponents (bf16Components p).2.1 := by
  simp only [bf16Step]
  split_ifs <;> rfl

theorem bf16Step_mantissas (s : FloatSweep) (p : ℕ) :
    (bf16Step s p).mantissas = bsSet s.mantissas (bf16Components p).2.2 := by
  simp only [bf16Step]
  split_ifs <;> rfl

theorem f32Step_signs (s : FloatSweep) (p : ℕ) :
    (f32Step s p).signs = csAdd s.signs (p >>> f32SignOffset) := by
  simp only [f32Step]
  split_ifs <;> rfl

theorem f32Step_exponents (s : FloatSweep) (p : ℕ) :
    (f32Step s p).exponents = csAdd s.exponents ((p >>> f32ExponentOffset) % 2 ^ 8) := by
  simp only [f32Step]
  split_ifs <;> rfl

theorem f32Step_mantissas (s : FloatSweep) (p : ℕ) :
    (f32Step s p).mantissas = bsSet s.mantissas (p % 2 ^ 23) := by
  simp only [f32Step]
  split_ifs <;> rfl

theorem words16_length : ∀ (l : List ℕ), (words16 l).length = l.length / 2
  | [] => rfl
  | [_] => by simp [words16]
  | _ :: _ :: rest => by
    rw [words16, List.length_cons]
    rw [words16_length rest]
    simp only [List.length_cons]
    omega

theorem words32_length : ∀ (l : List ℕ), (words32 l).length = l.length / 4
  | [] => rfl
  | [_] => by simp [words32]
  | [_, _] => by simp [words32]
  | [_, _, _] => by simp [words32]
  | _ :: _ :: _ :: _ :: rest => by
    rw [words32, List.length_cons]
    rw [words32_length rest]
    simp only [List.length_cons]
    omega

theorem words32_lt : ∀ (data : List ℕ), (∀ b ∈ data, b < 256) →
    ∀ p ∈ words32 data, p < 2 ^ 32
  | [], _, p, hp => by simp [words32] at hp
  | [_], _, p, hp => by simp [words32] at hp
  | [_, _], _, p, hp => by simp [words32] at hp
  | [_, _, _], _, p, hp => by simp [words32] at hp
  | b0 :: b1 :: b2 :: b3 :: rest, hb, p, hp => by
    rw [words32] at hp
    rcases List.mem_cons.mp hp with rfl | hmem
    · have h0 := hb b0 (by simp)
      have h1 := hb b1 (by simp)
      have h2 := hb b2 (by simp)
      have h3 := hb b3 (by simp)
      omega
    · exact words32_lt rest (fun x hx => hb x (by simp [hx])) p hmem

/-- Shared workhorse for C8: after a non-empty in-range float sweep the three
histogram populations are between 1 and their domain sizes. -/
theorem float_fold_bounds (expBits manBits : ℕ)
    (step : FloatSweep → ℕ → FloatSweep)
    (sIdx eIdx mIdx : ℕ → ℕ)
    (hs : ∀ s p, (step s p).signs = csAdd s.signs (sIdx p))
    (he : ∀ s p, (step s p).exponents = csAdd s.exponents (eIdx p))
    (hm : ∀ s p, (step s p).mantissas = bsSet s.mantissas (mIdx p))
    (l : List ℕ) (hl : l ≠ [])
    (hsb : ∀ p ∈ l, sIdx p < 2)
    (heb : ∀ p ∈ l, eIdx p < 2 ^ expBits)
    (hmb : ∀ p ∈ l, mIdx p < 2 ^ manBits)
    (hdiv : 64 * ((2 ^ manBits + 63) / 64) = 2 ^ manBits) :
    (1 ≤ csEffective ((l.foldl step (floatSweepInit expBits manBits)).signs) ∧
     csEffective ((l.foldl step (floatSweepInit expBits manBits)).signs) ≤ 2) ∧
    (1 ≤ csEffective ((l.foldl step (floatSweepInit expBits manBits)).exponents) ∧
     csEffective ((l.foldl step (floatSweepInit expBits manBits)).exponents) ≤
       2 ^ expBits) ∧
    (1 ≤ bsEffective ((l.foldl step (floatSweepInit expBits manBits)).mantissas) ∧
     bsEffective ((l.foldl step (floatSweepInit expBits manBits)).mantissas) ≤
       2 ^ manBits) := by
  have hinitS : ((floatSweepInit expBits manBits).signs).length = 2 := by
    simp [floatSweepInit, csResize]
  have hinitE : ((floatSweepInit expBits manBits).exponents).length = 2 ^ expBits := by
    simp [floatSweepInit, csResize]
  have hinitM : ((floatSweepInit expBits manBits).mantissas).bits.length =
      (2 ^ manBits + 63) / 64 := by
    simp [floatSweepInit, bsResize]
  obtain ⟨slen, _, spos⟩ := fold_countset_proj step FloatSweep.signs sIdx hs l
    (floatSweepInit expBits manBits)
  obtain ⟨elen, _, epos⟩ := fold_countset_proj step FloatSweep.exponents eIdx he l
    (floatSweepInit expBits manBits)
  obtain ⟨mlen, mwf, _, mpos⟩ := fold_bitset_proj step FloatSweep.mantissas mIdx hm l
    (floatSweepInit expBits manBits)
  have hwfinit : ∀ w ∈ ((floatSweepInit expBits manBits).mantissas).bits, w < 2 ^ 64 := by
    intro w hw
    simp only [floatSweepInit, bsResize] at hw
    rw [List.eq_of_mem_replicate hw]
    norm_num
  refine ⟨⟨?_, ?_⟩, ⟨?_, ?_⟩, ?_, ?_⟩
  · exact spos hl fun p hp => by rw [hinitS]; exact hsb p hp
  · have := csEffective_le_length ((l.foldl step (floatSweepInit expBits manBits)).signs)
    omega
  · exact epos hl fun p hp => by rw [hinitE]; exact heb p hp
  · have := csEffective_le_length
      ((l.foldl step (floatSweepInit expBits manBits)).exponents)
    omega
  · refine bsEffective_pos _ (mwf hwfinit) ?_
    refine mpos hl fun p hp => ?_
    rw [hinitM]
    have := hmb p hp
    omega
  · have hle := bsEffective_le ((l.foldl step (floatSweepInit expBits manBits)).mantissas)
    rw [mlen, hinitM] at hle
    omega

/-- Claim C8 (amended): for the float DTypes (F16, BF16, F32) on a non-empty
buffer, each of the three bit-kind records satisfies
`1 ≤ effective ≤ 2^allocation` and `bitsWasted ≥ 0`.  (The invariant fails
for integer tensors, whose U32 sign/exponent records are empty, and whose
`1 << effective` computation overflows `int32`, and for empty buffers — see
the counterexample.) -/
theorem c8_bitkind_invariants (name : String) (data : List ℕ)
    (hb : ∀ b ∈ data, b < 256) (h4 : 4 ≤ data.length) :
    (∃ a, analyzeTensor name DType.F16 data = .ok a ∧
      recordOK a.sign ∧ recordOK a.exponent ∧ recordOK a.mantissa) ∧
    (∃ a, analyzeTensor name DType.BF16 data = .ok a ∧
      recordOK a.sign ∧ recordOK a.exponent ∧ recordOK a.mantissa) ∧
    (∃ a, analyzeTensor name DType.F32 data = .ok a ∧
      recordOK a.sign ∧ recordOK a.exponent ∧ recordOK a.mantissa) := by
  have hne16 : words16 data ≠ [] := by
    intro h
    have hlen := words16_length data
    rw [h] at hlen
    simp at hlen
    omega
  have hne32 : words32 data ≠ [] := by
    intro h
    have hlen := words32_length data
    rw [h] at hlen
    simp at hlen
    omega
  have hp16 := words16_lt data hb
  have hp32 := words32_lt data hb
  obtain ⟨⟨s1, s2⟩, ⟨e1, e2⟩, m1, m2⟩ := float_fold_bounds 5 10 f16Step
    (fun p => (f16Components p).1) (fun p => (f16Components p).2.1)
    (fun p => (f16Components p).2.2)
    f16Step_signs f16Step_exponents f16Step_mantissas (words16 data) hne16
    (fun p hp => by
      show p >>> f16SignOffset < 2
      rw [Nat.shiftRight_eq_div_pow]
      have := hp16 p hp
      unfold f16SignOffset
      omega)
    (fun p hp => Nat.mod_lt _ (by norm_num))
    (fun p hp => Nat.mod_lt _ (by norm_num))
    (by norm_num)
  obtain ⟨⟨bs1, bs2⟩, ⟨be1, be2⟩, bm1, bm2⟩ := float_fold_bounds 8 7 bf16Step
    (fun p => (bf16Components p).1) (fun p => (bf16Components p).2.1)
    (fun p => (bf16Components p).2.2)
    bf16Step_signs bf16Step_exponents bf16Step_mantissas (words16 data) hne16
    (fun p hp => by
      show p >>> bf16SignOffset < 2
      rw [Nat.shiftRight_eq_div_pow]
      have := hp16 p hp
      unfold bf16SignOffset
      omega)
    (fun p hp => Nat.mod_lt _ (by norm_num))
    (fun p hp => Nat.mod_lt _ (by norm_num))
    (by norm_num)
  obtain ⟨⟨fs1, fs2⟩, ⟨fe1, fe2⟩, fm1, fm2⟩ := float_fold_bounds 8 23 f32Step
    (fun p => p >>> f32SignOffset) (fun p => (p >>> f32ExponentOffset) % 2 ^ 8)
    (fun p => p % 2 ^ 23)
    f32Step_signs f32Step_exponents f32Step_mantissas (words32 data) hne32
    (fun p hp => by
      show p >>> f32SignOffset < 2
      rw [Nat.shiftRight_eq_div_pow]
      have := hp32 p hp
      unfold f32SignOffset
      omega)
    (fun p hp => Nat.mod_lt _ (by norm_num))
    (fun p hp => Nat.mod_lt _ (by norm_num))
    (by norm_num)
  refine ⟨⟨_, rfl, ?_, ?_, ?_⟩, ⟨_, rfl, ?_, ?_, ?_⟩, ⟨_, rfl, ?_, ?_, ?_⟩⟩
  · exact recordOK_kindCount 1 _ (by norm_num) s1 (by simpa using s2)
  · exact recordOK_kindCount 5 _ (by norm_num) e1 (by simpa using e2)
  · exact recordOK_kindBool 10 _ (by norm_num) m1 (by simpa using m2)
  · exact recordOK_kindCount 1 _ (by norm_num) bs1 (by simpa using bs2)
  · exact recordOK_kindCount 8 _ (by norm_num) be1 (by simpa using be2)
  · exact recordOK_kindBool 7 _ (by norm_num) bm1 (by simpa using bm2)
  · exact recordOK_kindCount 1 _ (by norm_num) fs1 (by simpa using fs2)
  · exact recordOK_kindCount 8 _ (by norm_num) fe1 (by simpa using fe2)
  · exact recordOK_kindBool 23 _ (by norm_num) fm1 (by simpa using fm2)

/-- Witness for C8 at a concrete input. -/
theorem c8_bitkind_invariants_witness :
    (∃ a, analyzeTensor "t" DType.F16 [0, 0, 0, 0] = .ok a ∧
      recordOK a.sign ∧ recordOK a.exponent ∧ recordOK a.mantissa) ∧
    (∃ a, analyzeTensor "t" DType.BF16 [0, 0, 0, 0] = .ok a ∧
      recordOK a.sign ∧ recordOK a.exponent ∧ recordOK a.mantissa) ∧
    (∃ a, analyzeTensor "t" DType.F32 [0, 0, 0, 0] = .ok a ∧
      recordOK a.sign ∧ recordOK a.exponent ∧ recordOK a.mantissa) :=
  c8_bitkind_invariants "t" [0, 0, 0, 0] (by decide) (by decide)

set_option maxRecDepth 100000 in
/-- Counterexample to claim C8 as stated: a one-element U32 tensor has a sign
record with `effective = 0` (its CountSet is empty); an empty F16 tensor has
`effective = 0` on all records; and a one-element I32 tensor with all 31
value bits set overflows `1 << 31` in `int32`, making the mantissa record's
effective value `-(2^31)` — all violating `1 ≤ effective`. -/
theorem c8_integer_and_empty_counterexample :
    (∃ a, analyzeTensor "t" DType.U32 [0, 0, 0, 0] = .ok a ∧
      a.sign.numberDifferentValuesSeen = 0) ∧
    (∃ a, analyzeTensor "t" DType.F16 [] = .ok a ∧
      a.sign.numberDifferentValuesSeen = 0) ∧
    (∃ a, analyzeTensor "t" DType.I32 [0xFF, 0xFF, 0xFF, 0x7F] = .ok a ∧
      a.mantissa.numberDifferentValuesSeen = -(2 ^ 31)) :=
  ⟨⟨_, rfl, by decide⟩, ⟨_, rfl, by decide⟩, ⟨_, rfl, by decide⟩⟩

theorem f32Val_zero : f32Val 0 = 0 := by
  simp [f32Val, f32SignField, f32ExpField, f32ManField]

theorem csAdd_cons_head (a : ℕ) (t : List ℕ) :
    csAdd (a :: t) 0 = if a = 255 then a :: t else (a + 1) :: t := by
  unfold csAdd
  rw [show (a :: t).getD 0 0 = a from rfl]
  by_cases h : a = 255
  · rw [if_pos h, if_pos h]
  · rw [if_neg h, if_neg h]
    rfl

section

set_option maxRecDepth 20000

/-- The finite branch of the BF16 sweep step, spelled out field by field. -/
theorem bf16Step_finite (st : FloatSweep) (p : ℕ)
    (hnan : f32IsNaNb (bf16Float32bits p) = false)
    (hinf : f32IsInfb (bf16Float32bits p) = false)
    (hlo : ¬ f32Val (bf16Float32bits p) < -infThreshold)
    (hhi : ¬ infThreshold < f32Val (bf16Float32bits p)) :
    bf16Step st p = FloatSweep.mk
      (csAdd st.signs (bf16Components p).1)
      (csAdd st.exponents (bf16Components p).2.1)
      (bsSet st.mantissas (bf16Components p).2.2)
      (if f32Val (bf16Float32bits p) < st.minV then f32Val (bf16Float32bits p)
        else st.minV)
      (if st.maxV < f32Val (bf16Float32bits p) then f32Val (bf16Float32bits p)
        else st.maxV)
      (st.total + f32Val (bf16Float32bits p)) st.inf st.nan := by
  simp only [bf16Step]
  rw [if_neg (show ¬(f32IsNaNb (bf16Float32bits p) = true) by simp [hnan]),
    if_neg (show ¬(f32IsInfb (bf16Float32bits p) = true ∨
        f32Val (bf16Float32bits p) < -infThreshold ∨
        infThreshold < f32Val (bf16Float32bits p)) by
      rintro (h | h | h)
      · rw [hinf] at h
        exact Bool.noConfusion h
      · exact hlo h
      · exact hhi h)]

/-- The sweep state after `k ≥ 1` all-zero BF16 elements: the sign and
exponent counters hold `min k 255` at slot 0, mantissa bit 0 is set, and all
scalar statistics are 0. -/
def bf16ZeroState (k : ℕ) : FloatSweep :=
  ⟨[min k 255, 0], min k 255 :: List.replicate 255 0, ⟨2 ^ 7, [1, 0]⟩,
    0, 0, 0, 0, 0⟩

theorem bf16Step_zeroState (k : ℕ) :
    bf16Step (bf16ZeroState k) 0 = bf16ZeroState (k + 1) := by
  have hval : f32Val (bf16Float32bits 0) = 0 := by
    rw [show bf16Float32bits 0 = 0 from by decide]
    exact f32Val_zero
  rw [bf16Step_finite (bf16ZeroState k) 0 (by decide) (by decide)
    (by rw [hval]; norm_num [infThreshold]) (by rw [hval]; norm_num [infThreshold]),
    hval]
  show FloatSweep.mk (csAdd [min k 255, 0] 0)
    (csAdd (min k 255 :: List.replicate 255 0) 0) (bsSet ⟨2 ^ 7, [1, 0]⟩ 0)
    (if (0 : ℚ) < 0 then 0 else 0) (if (0 : ℚ) < 0 then 0 else 0) (0 + 0) 0 0 =
      bf16ZeroState (k + 1)
  rw [if_neg (lt_irrefl (0 : ℚ)), add_zero,
    show bsSet ⟨2 ^ 7, [1, 0]⟩ 0 = ⟨2 ^ 7, [1, 0]⟩ from by decide,
    csAdd_cons_head, csAdd_cons_head]
  unfold bf16ZeroState
  by_cases h : min k 255 = 255
  · rw [if_pos h, if_pos h, show min (k + 1) 255 = min k 255 from by omega]
  · rw [if_neg h, if_neg h, show min (k + 1) 255 = min k 255 + 1 from by omega]

theorem bf16Step_init_zero : bf16Step (floatSweepInit 8 7) 0 = bf16ZeroState 1 := by
  have hval : f32Val (bf16Float32bits 0) = 0 := by
    rw [show bf16Float32bits 0 = 0 from by decide]
    exact f32Val_zero
  rw [bf16Step_finite (floatSweepInit 8 7) 0 (by decide) (by decide)
    (by rw [hval]; norm_num [infThreshold]) (by rw [hval]; norm_num [infThreshold]),
    hval]
  show FloatSweep.mk (csAdd (csResize 2) 0) (csAdd (csResize (2 ^ 8)) 0)
    (bsSet (bsResize (2 ^ 7)) 0)
    (if (0 : ℚ) < maxFloat32 then 0 else maxFloat32)
    (if -maxFloat32 < (0 : ℚ) then 0 else -maxFloat32) (0 + 0) 0 0 =
      bf16ZeroState 1
  rw [if_pos (show (0 : ℚ) < maxFloat32 by norm_num [maxFloat32]),
    if_pos (show -maxFloat32 < (0 : ℚ) by norm_num [maxFloat32]), add_zero,
    show csAdd (csResize 2) 0 = [min 1 255, 0] from by decide,
    show csAdd (csResize (2 ^ 8)) 0 = min 1 255 :: List.replicate 255 0 from by decide,
    show bsSet (bsResize (2 ^ 7)) 0 = ⟨2 ^ 7, [1, 0]⟩ from by decide]
  rfl

theorem fold_bf16_zeroState : ∀ (n k : ℕ),
    (List.replicate n 0).foldl bf16Step (bf16ZeroState k) = bf16ZeroState (k + n) := by
  intro n
  induction n with
  | zero => intro k; rfl
  | succ m ih =>
    intro k
    rw [List.replicate_succ, List.foldl_cons, bf16Step_zeroState k, ih (k + 1),
      show k + 1 + m = k + (m + 1) from by omega]

theorem words16_replicate : ∀ n : ℕ,
    words16 (List.replicate (2 * n) 0) = List.replicate n 0 := by
  intro n
  induction n with
  | zero => rfl
  | succ m ih =>
    rw [show 2 * (m + 1) = 2 * m + 1 + 1 from by ring, List.replicate_succ,
      List.replicate_succ, words16, ih, List.replicate_succ]
    norm_num

theorem bf16_allzero_fold :
    (words16 (List.replicate 2048 0)).foldl bf16Step (floatSweepInit 8 7) =
      bf16ZeroState 1024 := by
  rw [show (2048 : ℕ) = 2 * 1024 from by norm_num, words16_replicate,
    show (1024 : ℕ) = 1023 + 1 from by norm_num, List.replicate_succ,
    List.foldl_cons, bf16Step_init_zero, fold_bf16_zeroState 1023 1]

/-- The BF16 case of `AnalyzeTensor`, packaged for an arbitrary sweep result. -/
theorem analyzeTensor_bf16_eq (name : String) (data : List ℕ) (st : FloatSweep)
    (h : (words16 data).foldl bf16Step (floatSweepInit 8 7) = st) :
    analyzeTensor name DType.BF16 data = .ok
      ⟨name, .BF16, ((data.length / 2 : ℕ) : ℤ),
        st.total / ((data.length / 2 : ℕ) : ℚ), st.minV, st.maxV, st.inf, st.nan,
        .kindCount 1 st.signs, .kindCount 8 st.exponents,
        .kindBool 7 st.mantissas⟩ := by
  subst h
  rfl

/-- Everything the all-zero BF16 scenario of the spec determines, with the
values the code actually produces. -/
theorem bf16_allzero_facts :
    ∃ a, analyzeTensor "t" DType.BF16 (List.replicate 2048 0) = .ok a ∧
      a.numEl = 1024 ∧ a.min = 0 ∧ a.max = 0 ∧ a.avg = 0 ∧
      a.sign.numberDifferentValuesSeen = 1 ∧
      a.exponent.numberDifferentValuesSeen = 1 ∧
      a.mantissa.numberDifferentValuesSeen = 1 ∧
      a.sign.bitsWasted = 1 ∧ a.exponent.bitsWasted = 8 ∧
      a.mantissa.bitsWasted = 7 ∧ wastedBytes a = 2048 := by
  have key := analyzeTensor_bf16_eq "t" (List.replicate 2048 0) (bf16ZeroState 1024)
    bf16_allzero_fold
  have hes : csEffective (bf16ZeroState 1024).signs = 1 := by decide
  have hee : csEffective (bf16ZeroState 1024).exponents = 1 := by decide
  have hem : bsEffective (bf16ZeroState 1024).mantissas = 1 := by decide
  have hws : BitAlloc.bitsWasted (.kindCount 1 (bf16ZeroState 1024).signs) = 1 := by
    show (if (1 : ℤ) = 0 then 0 else 1 - ceilLog2 (csEffective (bf16ZeroState 1024).signs)) = 1
    rw [if_neg (show ¬(1 : ℤ) = 0 by norm_num), hes]
    unfold ceilLog2
    rw [Nat.clog_one_right]
    norm_num
  have hwe : BitAlloc.bitsWasted (.kindCount 8 (bf16ZeroState 1024).exponents) = 8 := by
    show (if (8 : ℤ) = 0 then 0 else 8 - ceilLog2 (csEffective (bf16ZeroState 1024).exponents)) = 8
    rw [if_neg (show ¬(8 : ℤ) = 0 by norm_num), hee]
    unfold ceilLog2
    rw [Nat.clog_one_right]
    norm_num
  have hwm : BitAlloc.bitsWasted (.kindBool 7 (bf16ZeroState 1024).mantissas) = 7 := by
    show (if (7 : ℤ) = 0 then 0 else 7 - ceilLog2 (bsEffective (bf16ZeroState 1024).mantissas)) = 7
    rw [if_neg (show ¬(7 : ℤ) = 0 by norm_num), hem]
    unfold ceilLog2
    rw [Nat.clog_one_right]
    norm_num
  refine ⟨_, key, by rw [List.length_replicate]; norm_num, rfl, rfl, zero_div _,
    ?_, ?_, ?_, hws, hwe, hwm, ?_⟩
  · show (csEffective (bf16ZeroState 1024).signs : ℤ) = 1
    rw [hes]
    rfl
  · show (csEffective (bf16ZeroState 1024).exponents : ℤ) = 1
    rw [hee]
    rfl
  · show (bsEffective (bf16ZeroState 1024).mantissas : ℤ) = 1
    rw [hem]
    rfl
  · show (((List.replicate 2048 0).length / 2 : ℕ) : ℤ) *
        (BitAlloc.bitsWasted (.kindCount 1 (bf16ZeroState 1024).signs) +
          BitAlloc.bitsWasted (.kindCount 8 (bf16ZeroState 1024).exponents) +
          BitAlloc.bitsWasted (.kindBool 7 (bf16ZeroState 1024).mantissas)) / 8 = 2048
    rw [hws, hwe, hwm,
      show (((List.replicate 2048 0).length / 2 : ℕ) : ℤ) = 1024 from by
        rw [List.length_replicate]; norm_num]
    norm_num

/-- Claim C3 (amended): for the all-zero BF16 tensor of 1024 elements the
analyzer reports `min = max = avg = 0`, effective population 1 for sign,
exponent and mantissa, wasted bits 1 for sign (allocation 1 minus
`⌈log₂ 1⌉ = 0`), 8 for exponent, 7 for mantissa, and total wasted bytes
`1024 × 16 / 8 = 2048`. -/
theorem c3_all_zero_bf16_tensor :
    ∃ a, analyzeTensor "t" DType.BF16 (List.replicate 2048 0) = .ok a ∧
      a.numEl = 1024 ∧ a.min = 0 ∧ a.max = 0 ∧ a.avg = 0 ∧
      a.sign.numberDifferentValuesSeen = 1 ∧
      a.exponent.numberDifferentValuesSeen = 1 ∧
      a.mantissa.numberDifferentValuesSeen = 1 ∧
      a.sign.bitsWasted = 1 ∧ a.exponent.bitsWasted = 8 ∧
      a.mantissa.bitsWasted = 7 ∧ wastedBytes a = 2048 :=
  bf16_allzero_facts

/-- Counterexample to claim C3 as stated: the sign record of the all-zero
BF16 tensor wastes 1 bit (not 0: `wasted = allocation − ⌈log₂ 1⌉ = 1 − 0`),
so the wasted-byte total is `1024 × (1+8+7) / 8 = 2048`, not 1920. -/
theorem c3_claimed_values_wrong :
    ∃ a, analyzeTensor "t" DType.BF16 (List.replicate 2048 0) = .ok a ∧
      a.sign.bitsWasted ≠ 0 ∧ wastedBytes a ≠ 1920 := by
  obtain ⟨a, ha, _, _, _, _, _, _, _, hws, _, _, hwb⟩ := bf16_allzero_facts
  exact ⟨a, ha, by rw [hws]; norm_num, by rw [hwb]; norm_num⟩

end

end NBits
